import Mathlib

/-!
Verification of the CSV-driven manifest generation engine of
`src/generate-manifest-scripts/csv_to_json.py`.

The Python module manipulates JSON values loaded by `json.load` (dicts,
lists, strings, ints, floats, bools, None).  We embed those values as the
mutual inductive family `J` / `JElems` / `JFields` below.  Dictionary keys
are `PKey` (a string or a natural number) because the template parser
builds auxiliary one-entry dicts `{0: element}` whose key is the integer 0.

Python mutates trees in place through aliases; the embedding threads the
manifest tree (`ldm`) as an explicit value and performs every mutation as
a path-based functional update, routing each assignment of the source to
the object it targets.  Fallible Python operations (KeyError, IndexError,
TypeError, AttributeError, ValueError, AssertionError, explicit raises)
are modelled with `Except F`.  Functions whose Python loop is not
structurally recursive carry an explicit fuel argument together with a
bound that dominates the number of iterations the Python loop performs,
so exhaustion is unreachable; it is still reported as a distinguished
fault rather than silently ignored wherever the function is fallible.
-/

namespace TnoCsv

/-- Faults modelling the Python exceptions the engine can raise. -/
inductive F where
  | assertionError
  | attributeError
  | typeError
  | keyError
  | indexError
  | valueError
  | duplicateColumn
  | duplicateArrayParameter
  | duplicateAttributes
  | fuelExhausted
deriving DecidableEq, Repr

/-- Python dict keys appearing in the engine: JSON object keys (strings)
and the integer key 0 of the auxiliary `{0: element}` wrapper dicts. -/
inductive PKey where
  | ps (s : String)
  | pn (n : Nat)
deriving DecidableEq, Repr

mutual
/-- A Python value produced by `json.load` (and by the engine's coercions).
Floats are represented by their validated literal text: the engine never
computes with float values, it only stores them. -/
inductive J where
  | jnull
  | jbool (b : Bool)
  | jint (n : Int)
  | jfloat (lit : String)
  | jstr (s : String)
  | jarr (elems : JElems)
  | jobj (fields : JFields)
deriving Repr

/-- The elements of a Python list, in order. -/
inductive JElems where
  | nil
  | cons (v : J) (rest : JElems)
deriving Repr

/-- The entries of a Python dict, in insertion order. -/
inductive JFields where
  | nil
  | cons (k : PKey) (v : J) (rest : JFields)
deriving Repr
end

namespace JElems

/-- Number of elements (Python `len` on a list). -/
def length : JElems → Nat
  | .nil => 0
  | .cons _ rest => 1 + rest.length

/-- Zero-based element access. -/
def get? : JElems → Nat → Option J
  | .nil, _ => none
  | .cons v _, 0 => some v
  | .cons _ rest, n + 1 => rest.get? n

/-- Replace the element at an index that exists. -/
def set : JElems → Nat → J → JElems
  | .nil, _, _ => .nil
  | .cons _ rest, 0, w => .cons w rest
  | .cons v rest, n + 1, w => .cons v (rest.set n w)

/-- Append one element at the end (Python `list.append`). -/
def push : JElems → J → JElems
  | .nil, w => .cons w .nil
  | .cons v rest, w => .cons v (rest.push w)

/-- Keep the elements satisfying the predicate, in order. -/
def filter (p : J → Bool) : JElems → JElems
  | .nil => .nil
  | .cons v rest => if p v then .cons v (filter p rest) else filter p rest

end JElems

namespace JFields

/-- Number of entries (Python `len` on a dict). -/
def length : JFields → Nat
  | .nil => 0
  | .cons _ _ rest => 1 + rest.length

/-- Raw lookup of the first entry with the given key. -/
def get? : JFields → PKey → Option J
  | .nil, _ => none
  | .cons k v rest, q => if k = q then some v else rest.get? q

/-- Python `key in dict`. -/
def hasKey (fs : JFields) (q : PKey) : Bool :=
  (fs.get? q).isSome

/-- Python `dict[key] = value`: replace in place when the key exists,
append a new entry at the end otherwise. -/
def set : JFields → PKey → J → JFields
  | .nil, q, w => .cons q w .nil
  | .cons k v rest, q, w =>
      if k = q then .cons k w rest else .cons k v (rest.set q w)

/-- Python `del dict[key]` / `dict.pop(key)`: drop the entry. -/
def del : JFields → PKey → JFields
  | .nil, _ => .nil
  | .cons k v rest, q => if k = q then rest else .cons k v (rest.del q)

end JFields

/-- Python `dict.get(key)` as the engine uses it: both an absent key and a
stored JSON null answer Python `None`, which the source code never
distinguishes, so both map to `none`. -/
def pyGet (fs : JFields) (q : PKey) : Option J :=
  match fs.get? q with
  | some J.jnull => none
  | r => r

mutual
/-- Structural copy, modelling Python `copy.deepcopy` on a JSON tree. -/
def deepcopy : J → J
  | .jnull => .jnull
  | .jbool b => .jbool b
  | .jint n => .jint n
  | .jfloat l => .jfloat l
  | .jstr s => .jstr s
  | .jarr es => .jarr (deepcopyE es)
  | .jobj fs => .jobj (deepcopyF fs)

/-- Elementwise deep copy of a list. -/
def deepcopyE : JElems → JElems
  | .nil => .nil
  | .cons v rest => .cons (deepcopy v) (deepcopyE rest)

/-- Entrywise deep copy of a dict. -/
def deepcopyF : JFields → JFields
  | .nil => .nil
  | .cons k v rest => .cons k (deepcopy v) (deepcopyF rest)
end

mutual
/-- Structural equality of values, modelling Python `==` on JSON trees. -/
def jbeq : J → J → Bool
  | .jnull, .jnull => true
  | .jbool a, .jbool b => a == b
  | .jint a, .jint b => a == b
  | .jfloat a, .jfloat b => a == b
  | .jstr a, .jstr b => a == b
  | .jarr a, .jarr b => jbeqE a b
  | .jobj a, .jobj b => jbeqF a b
  | _, _ => false

/-- Structural equality of lists. -/
def jbeqE : JElems → JElems → Bool
  | .nil, .nil => true
  | .cons a as, .cons b bs => jbeq a b && jbeqE as bs
  | _, _ => false

/-- Structural equality of dicts.  The dicts compared by the engine are
produced by one deterministic traversal, so entry order agrees and
ordered comparison coincides with Python's order-insensitive dict
equality there. -/
def jbeqF : JFields → JFields → Bool
  | .nil, .nil => true
  | .cons k a as, .cons k' b bs => k == k' && jbeq a b && jbeqF as bs
  | _, _ => false
end

mutual
/-- Number of constructors of a value; used only to compute fuel bounds. -/
def jsize : J → Nat
  | .jarr es => 1 + jsizeE es
  | .jobj fs => 1 + jsizeF fs
  | _ => 1

/-- Size of a list spine plus its elements. -/
def jsizeE : JElems → Nat
  | .nil => 1
  | .cons v rest => 1 + jsize v + jsizeE rest

/-- Size of a dict spine plus its values. -/
def jsizeF : JFields → Nat
  | .nil => 1
  | .cons _ v rest => 1 + jsize v + jsizeF rest
end

/-! String primitives, modelling the Python `str` methods the engine
uses.  All of them work on the character list of the string so that
concrete runs reduce definitionally. -/

/-- Whitespace stripped by Python `str.strip()` (ASCII range). -/
def isPySpace (c : Char) : Bool :=
  c = ' ' || c = '\t' || c = '\n' || c = '\r' || c = '\x0b' || c = '\x0c'

/-- Python `str.strip()`. -/
def pyStrip (s : String) : String :=
  ⟨((s.data.dropWhile isPySpace).reverse.dropWhile isPySpace).reverse⟩

/-- Python `str.lower()` (ASCII). -/
def pyLower (s : String) : String :=
  ⟨s.data.map Char.toLower⟩

/-- Left-to-right test that `p` begins the list. -/
def pfx : List Char → List Char → Bool
  | [], _ => true
  | _ :: _, [] => false
  | a :: as, b :: bs => a == b && pfx as bs

/-- Index of the first occurrence of `pat` in `l`, if any. -/
def findIdx : List Char → List Char → Option Nat
  | pat, [] => if pfx pat [] then some 0 else none
  | pat, c :: rest =>
      if pfx pat (c :: rest) then some 0
      else match findIdx pat rest with
           | some n => some (n + 1)
           | none => none

/-- Python `str.find`: index of the first occurrence or `-1`. -/
def pyFind (s pat : String) : Int :=
  match findIdx pat.data s.data with
  | some n => (n : Int)
  | none => -1

/-- Python slice `s[a:b]` (with the clamping Python performs). -/
def pySlice (s : String) (a b : Nat) : String :=
  ⟨(s.data.drop a).take (b - a)⟩

/-- Python slice `s[a:]`. -/
def pyDrop (s : String) (a : Nat) : String :=
  ⟨s.data.drop a⟩

/-- Python slice `s[:-n]` for `n ≥ 1` (empty when the string is shorter). -/
def pyDropRight (s : String) (n : Nat) : String :=
  ⟨s.data.take (s.data.length - n)⟩

/-- Python `str.startswith`. -/
def pyStartsWith (s pat : String) : Bool :=
  pfx pat.data s.data

/-- One pass of Python `str.replace`: replace every non-overlapping
occurrence of `pat`, scanning left to right.  `fuel` dominates the length
of the scanned list, so exhaustion never happens at the call sites, which
pass `l.length + 1`. -/
def replaceL (fuel : Nat) (pat rep l : List Char) : List Char :=
  match fuel with
  | 0 => l
  | fuel + 1 =>
      match l with
      | [] => []
      | c :: rest =>
          if pat ≠ [] && pfx pat (c :: rest) then
            rep ++ replaceL fuel pat rep ((c :: rest).drop pat.length)
          else
            c :: replaceL fuel pat rep rest

/-- Python `str.replace(pat, rep)` (empty `pat` never occurs here). -/
def pyReplace (s pat rep : String) : String :=
  ⟨replaceL (s.data.length + 1) pat.data rep.data s.data⟩

/-- Python `str.replace(c, d)` for single characters. -/
def pyReplaceChar (s : String) (c d : Char) : String :=
  ⟨s.data.map (fun x => if x = c then d else x)⟩

/-- Python `str.split(sep)` for a one-character separator. -/
def splitCh : List Char → Char → List (List Char)
  | [], _ => [[]]
  | c :: rest, sep =>
      if c = sep then [] :: splitCh rest sep
      else
        match splitCh rest sep with
        | [] => [[c]]
        | p :: ps => (c :: p) :: ps

/-- Python `str.split('.')` and friends, on strings. -/
def pySplit (s : String) (sep : Char) : List String :=
  (splitCh s.data sep).map (fun l => ⟨l⟩)

/-- Python `sep.join(parts)` for a one-character separator. -/
def joinCh (sep : Char) : List String → String
  | [] => ""
  | [p] => p
  | p :: rest => p ++ ⟨[sep]⟩ ++ joinCh sep rest

/-- Python `os.path.basename` (POSIX separator). -/
def pyBasename (s : String) : String :=
  match (pySplit s '/').reverse with
  | [] => s
  | last :: _ => last

/-- Python `os.path.join(a, b)` in the cases exercised here (POSIX). -/
def pyJoin (a b : String) : String :=
  if pyStartsWith b "/" then b
  else if a = "" then b
  else if a.data.reverse.head? = some '/' then a ++ b
  else a ++ "/" ++ b

/-- Python `str(n)` for a natural number. -/
def natStr (n : Nat) : String := toString n

/-! The TemplateParameterIndex: `parse_template_parameters` walks the
template and records, for every placeholder occurrence, the Python tuple
`(root_object, keys, root_list)`.  `root_object` and the first components
of the `root_list` anchors are object references in Python; the embedding
stores their values, which is what the `==` comparison of two indexes
observes, while the materializer below re-derives tree locations from the
recorded key paths (in Python the references alias the tree being
mutated). -/

/-- One recorded occurrence of a placeholder: the Python tuple
`(root_object, keys, root_list)`. -/
structure Occ where
  root : J
  keys : List PKey
  rootList : List (J × List PKey)
deriving Repr

/-- The parameter index: placeholder text to its occurrence list, in
insertion (discovery) order, mirroring the Python dict. -/
abbrev Params := List (String × List Occ)

/-- Record an occurrence under a placeholder: get-or-create the entry and
append (Python `parameters_object.get` / `append`). -/
def paramsAdd : Params → String → Occ → Params
  | [], p, o => [(p, [o])]
  | (q, os) :: rest, p, o =>
      if q = p then (q, os ++ [o]) :: rest else (q, os) :: paramsAdd rest p o

/-- The inner `parse_str` of `parse_template_parameters`: scan a string
leaf left to right for `{{...}}` spans.  The fuel dominates the length of
`val`; every recursive step drops at least two characters, and callers
pass `val.length + 1`. -/
def parse_str (fuel : Nat) (root : J) (keys : List PKey) (val : String)
    (rootList : List (J × List PKey)) (acc : Params) : Params :=
  match fuel with
  | 0 => acc
  | fuel + 1 =>
      let v := pyStrip val
      let si := pyFind v "\x7b\x7b"
      let ei := pyFind v "\x7d\x7d"
      if si ≥ 0 && ei ≥ 0 then
        let parameter := pySlice v si.toNat (ei.toNat + 2)
        let acc :=
          if parameter.length > 0 then paramsAdd acc parameter ⟨root, keys, rootList⟩ else acc
        let left := pyDrop v (ei.toNat + 2)
        if left.length > 0 then parse_str fuel root keys left rootList acc else acc
      else acc

/-- The inner `parse_dict` of `parse_template_parameters`.  A map value
recurses under the extended key path; a single-element list pushes an
array anchor and restarts from the `{0: element}` wrapper as a fresh
root; a string leaf is scanned; any other value (including lists whose
length is not 1) is ignored.  The fuel dominates the recursion depth:
every call strictly decreases the combined size of the pending fields, so
`jsize` of the template plus one suffices and exhaustion is unreachable. -/
def parse_dict (fuel : Nat) (parent : JFields) (root : J) (keys : List PKey)
    (rootList : List (J × List PKey)) (acc : Params) : Params :=
  match fuel with
  | 0 => acc
  | fuel + 1 =>
      match parent with
      | .nil => acc
      | .cons k v rest =>
          let nk := keys ++ [k]
          let acc :=
            match v with
            | .jobj fs => parse_dict fuel fs root nk rootList acc
            | .jarr (.cons e .nil) =>
                parse_dict fuel (.cons (.pn 0) e .nil) (J.jobj (.cons (.pn 0) e .nil)) []
                  (rootList ++ [(root, nk)]) acc
            | .jstr s => parse_str (s.length + 1) root nk s rootList acc
            | _ => acc
          parse_dict fuel rest root keys rootList acc

/-- `parse_template_parameters(root_object, parameters_object)`: build the
parameter index of a template.  A non-dict root raises AttributeError in
Python (`.items()` on a non-dict). -/
def parse_template_parameters (root_object : J) : Except F Params :=
  match root_object with
  | .jobj fs => .ok (parse_dict (jsize root_object + 1) fs root_object [] [] [])
  | _ => .error .attributeError

/-- Python `==` on one recorded anchor pair. -/
def anchorEq : (J × List PKey) → (J × List PKey) → Bool
  | (r, ks), (r', ks') => jbeq r r' && ks == ks'

/-- Python `==` on anchor lists. -/
def anchorsEq : List (J × List PKey) → List (J × List PKey) → Bool
  | [], [] => true
  | a :: as, b :: bs => anchorEq a b && anchorsEq as bs
  | _, _ => false

/-- Python `==` on one occurrence tuple. -/
def occEq (a b : Occ) : Bool :=
  jbeq a.root b.root && a.keys == b.keys && anchorsEq a.rootList b.rootList

/-- Python `==` on occurrence lists. -/
def occsEq : List Occ → List Occ → Bool
  | [], [] => true
  | a :: as, b :: bs => occEq a b && occsEq as bs
  | _, _ => false

/-- Key lookup in a parameter index. -/
def paramsLookup : Params → String → Option (List Occ)
  | [], _ => none
  | (q, os) :: rest, p => if q = p then some os else paramsLookup rest p

/-- Python `==` on two parameter indexes (dict equality: same keys, equal
values). -/
def paramsEq (a b : Params) : Bool :=
  a.length == b.length &&
    a.all fun po =>
      match paramsLookup b po.1 with
      | some os' => occsEq po.2 os'
      | none => false

/-! The ColumnBinder: `map_csv_column_names_to_parameters`. -/

/-- A bound array coordinate: the Python list
`[i1, ..., id, csv_column_index]` appended to `parameter_column`. -/
structure AEntry where
  coords : List Nat
  col : Nat
deriving Repr, DecidableEq

/-- The value stored for one parameter in `map_parameter_column`: a single
CSV column index for a scalar parameter, or the list of bound coordinate
tuples for an array parameter. -/
inductive BindVal where
  | scalar (i : Nat)
  | array (entries : List AEntry)
deriving Repr, DecidableEq

/-- The Python dict `map_parameter_column`, in insertion order. -/
abbrev BindMap := List (String × BindVal)

/-- Key lookup in the binding map (Python `dict.get`). -/
def bindLookup : BindMap → String → Option BindVal
  | [], _ => none
  | (q, v) :: rest, p => if q = p then some v else bindLookup rest p

/-- Python `map_parameter_column[parameter] = value`. -/
def bindSet : BindMap → String → BindVal → BindMap
  | [], p, v => [(p, v)]
  | (q, w) :: rest, p, v =>
      if q = p then (q, v) :: rest else (q, w) :: bindSet rest p v

/-- Index of the first occurrence of a string in a list, if any. -/
def listIndexOf : List String → String → Option Nat
  | [], _ => none
  | c :: rest, n =>
      if c = n then some 0
      else
        match listIndexOf rest n with
        | some i => some (i + 1)
        | none => none

/-- The inner `get_column_index`: first index of the column name, `-1`
when absent, and a fatal duplicate-column fault when the name occurs
again after the first hit. -/
def get_column_index (col_names : List String) (col_name : String) : Except F Int :=
  match listIndexOf col_names col_name with
  | none => .ok (-1)
  | some i =>
      if (listIndexOf (col_names.drop (i + 1)) col_name).isSome then .error .duplicateColumn
      else .ok (i : Int)

/-- Longest prefix of decimal digits, with the remainder. -/
def takeDigits : List Char → (List Char × List Char)
  | [] => ([], [])
  | c :: rest =>
      if '0' ≤ c && c ≤ '9' then
        let (ds, r) := takeDigits rest
        (c :: ds, r)
      else ([], c :: rest)

/-- Numeric value of a digit list. -/
def numVal (ds : List Char) : Nat :=
  ds.foldl (fun n c => n * 10 + (c.toNat - '0'.toNat)) 0

/-- Parse exactly `d` groups of the form `_[1-9][0-9]*`, consuming the
whole remainder (the regex fullmatch of the binder). -/
def parseGroups : Nat → List Char → Option (List Nat)
  | 0, [] => some []
  | 0, _ :: _ => none
  | d + 1, l =>
      match l with
      | '_' :: c :: rest =>
          if '1' ≤ c && c ≤ '9' then
            let (ds, rest') := takeDigits rest
            match parseGroups d rest' with
            | some ns => some (numVal (c :: ds) :: ns)
            | none => none
          else none
      | _ => none

/-- Match a header against `key` followed by `d` index groups, returning
the group values (the regex `escaped(key)(_[1-9][0-9]*){d}` of the
binder, with the index extraction of the source). -/
def matchArrayCol (key : String) (d : Nat) (col : String) : Option (List Nat) :=
  if pfx key.data col.data then parseGroups d (col.data.drop key.data.length) else none

/-- Positionwise maximum (both lists have length `d`). -/
def zipMax : List Nat → List Nat → List Nat
  | [], _ => []
  | _ :: _, [] => []
  | a :: as, b :: bs => max a b :: zipMax as bs

/-- The `indexes_count` computation: per position, the maximum index seen
among all matching headers. -/
def maxCounts (key : String) (d : Nat) (cols : List String) : List Nat :=
  cols.foldl
    (fun counts col =>
      match matchArrayCol key d col with
      | some ns => zipMax counts ns
      | none => counts)
    (List.replicate d 0)

/-- One advance step of the mixed-radix enumeration, on reversed
coordinate and count lists (the Python `for i in range(d-1, -1, -1)`
block: the innermost position that can still advance is incremented and
every later position is reset to zero). -/
def advRev : List Nat → List Nat → Option (List Nat)
  | [], _ => none
  | _ :: _, [] => none
  | c :: cs, m :: ms =>
      if c + 1 < m then some ((c + 1) :: cs)
      else
        match advRev cs ms with
        | some cs' => some (0 :: cs')
        | none => none

/-- Advance a coordinate vector inside the count box, or report that the
enumeration is done. -/
def advanceCoord (counts coord : List Nat) : Option (List Nat) :=
  match advRev coord.reverse counts.reverse with
  | some r => some r.reverse
  | none => none

/-- The header name `key_<c1+1>_..._<cd+1>` probed for a coordinate. -/
def colName (key : String) (coord : List Nat) : String :=
  coord.foldl (fun s c => s ++ "_" ++ natStr (c + 1)) key

/-- Fuel for the enumeration loop: the loop visits each coordinate vector
of the box once, so the product of `(count + 1)` over all positions plus
one strictly dominates the iteration count and exhaustion is
unreachable. -/
def enumFuel (counts : List Nat) : Nat :=
  counts.foldl (fun a c => a * (c + 1)) 1 + 1

/-- The `while not done` loop of the binder: probe every coordinate of
the box in mixed-radix order and record the CSV column index of each
header that exists. -/
def enumLoop (fuel : Nat) (cols : List String) (key : String) (counts coord : List Nat)
    (acc : List AEntry) : Except F (List AEntry) :=
  match fuel with
  | 0 => .error .fuelExhausted
  | fuel + 1 => do
      let i ← get_column_index cols (colName key coord)
      let acc := if i ≥ 0 then acc ++ [AEntry.mk coord i.toNat] else acc
      match advanceCoord counts coord with
      | some coord' => enumLoop fuel cols key counts coord' acc
      | none => .ok acc

/-- The lookup key of a placeholder: text between the delimiters,
stripped and lower-cased. -/
def paramKeyOf (parameter : String) : String :=
  pyLower (pyStrip (pyDropRight (pyDrop parameter 2) 2))

/-- The array-parameter enumeration of one occurrence: compute the count
box from the headers and probe every coordinate. -/
def arrayEntries (cols : List String) (parameter : String) (d : Nat) :
    Except F (List AEntry) :=
  enumLoop (enumFuel (maxCounts (paramKeyOf parameter) d cols)) cols (paramKeyOf parameter)
    (maxCounts (paramKeyOf parameter) d cols) (List.replicate d 0) []

/-- Process the occurrence list of one parameter (the inner loop of the
binder over `parameter_recs`). -/
def bindOccs (cols : List String) (parameter : String) : List Occ → BindMap → Except F BindMap
  | [], m => .ok m
  | occ :: rest, m =>
      if occ.rootList.length = 0 then
        match bindLookup m parameter with
        | some _ => bindOccs cols parameter rest m
        | none =>
            match get_column_index cols (paramKeyOf parameter) with
            | .error e => .error e
            | .ok i =>
                bindOccs cols parameter rest
                  (if i ≥ 0 then bindSet m parameter (.scalar i.toNat) else m)
      else
        match bindLookup m parameter with
        | some _ => .error .duplicateArrayParameter
        | none =>
            match arrayEntries cols parameter occ.rootList.length with
            | .error e => .error e
            | .ok entries => bindOccs cols parameter rest (bindSet m parameter (.array entries))

/-- Fold of the binder over all parameters, in index order. -/
def bindParams (cols : List String) : Params → BindMap → Except F BindMap
  | [], m => .ok m
  | (p, occs) :: rest, m =>
      match bindOccs cols p occs m with
      | .error e => .error e
      | .ok m' => bindParams cols rest m'

/-- The header row of the CSV, each cell stripped and lower-cased. -/
def headerColumns (rows : List (List String)) : List String :=
  match rows with
  | [] => []
  | r :: _ => r.map (fun c => pyLower (pyStrip c))

/-- `map_csv_column_names_to_parameters(csv_file, parameters_object)`,
taking the parsed CSV rows in place of the file. -/
def map_csv_column_names_to_parameters (rows : List (List String))
    (parameters_object : Params) : Except F BindMap :=
  bindParams (headerColumns rows) parameters_object []

/-! The RowMaterializer.  Python mutates the fresh deep copy `ldm`
through aliases recorded by the parser; the embedding performs the same
assignments as path-based updates on the threaded tree value. -/

/-- Python `container[key]` (read). -/
def getItem : J → PKey → Except F J
  | .jobj fs, q =>
      match fs.get? q with
      | some v => .ok v
      | none => .error .keyError
  | .jarr es, .pn i =>
      match es.get? i with
      | some v => .ok v
      | none => .error .indexError
  | .jarr _, .ps _ => .error .typeError
  | .jstr s, .pn i =>
      match s.data.get? i with
      | some c => .ok (.jstr ⟨[c]⟩)
      | none => .error .indexError
  | _, _ => .error .typeError

/-- Navigate a key path from the root (the successive `parent_object[key]`
reads of `get_deepest_key_object` plus the final read). -/
def treeGet : J → List PKey → Except F J
  | t, [] => .ok t
  | t, k :: rest => do
      let sub ← getItem t k
      treeGet sub rest

/-- Python `container[key] = value` (write): dicts insert or update in
place, lists update an existing index. -/
def setItem : J → PKey → J → Except F J
  | .jobj fs, q, w => .ok (.jobj (fs.set q w))
  | .jarr es, .pn i, w =>
      if i < es.length then .ok (.jarr (es.set i w)) else .error .indexError
  | .jarr _, .ps _, _ => .error .typeError
  | _, _, _ => .error .typeError

/-- Write through a key path: `get_deepest_key_object` followed by
`parent_object[key] = value`.  An empty path is the `{0: root}` wrapper
case of `get_deepest_key_object`: Python assigns into the ephemeral
wrapper, so the tree is unchanged. -/
def treeSet : J → List PKey → J → Except F J
  | t, [], _ => .ok t
  | t, [k], w => setItem t k w
  | t, k :: rest, w => do
      let sub ← getItem t k
      let sub' ← treeSet sub rest w
      setItem t k sub'

/-- Python `data_row[i]` for the non-negative indices used here. -/
def rowCell (data_row : List String) (i : Nat) : Except F String :=
  match data_row.get? i with
  | some c => .ok c
  | none => .error .indexError

/-- Test for the typed-placeholder shape: the full-match of the regex
`(int|float|bool|datetime_YYYY-MM-DD|datetime_MM/DD/YYYY)\(param\)`
against the stripped leaf (the parameter text is regex-escaped in the
source, so the match is literal). -/
def isTypedLeaf (stripped parameter : String) : Bool :=
  stripped = "int(" ++ parameter ++ ")" ||
  stripped = "float(" ++ parameter ++ ")" ||
  stripped = "bool(" ++ parameter ++ ")" ||
  stripped = "datetime_YYYY-MM-DD(" ++ parameter ++ ")" ||
  stripped = "datetime_MM/DD/YYYY(" ++ parameter ++ ")"

/-- The boolean coercion: `data.lower() in ('true','yes','y','t','1')`. -/
def pyBoolTrue (data : String) : Bool :=
  let l := pyLower data
  l = "true" || l = "yes" || l = "y" || l = "t" || l = "1"

/-- Every character is a decimal digit and there is at least one. -/
def digitsOnly (ds : List Char) : Bool :=
  ds ≠ [] && ds.all (fun c => '0' ≤ c && c ≤ '9')

/-- Python `int(data)` on a stripped string: optional sign and digits
(the underscore digit separators Python also accepts never occur in the
data exercised here). -/
def pyInt (data : String) : Except F Int :=
  match data.data with
  | '-' :: ds => if digitsOnly ds then .ok (-(numVal ds : Int)) else .error .valueError
  | '+' :: ds => if digitsOnly ds then .ok (numVal ds : Int) else .error .valueError
  | ds => if digitsOnly ds then .ok (numVal ds : Int) else .error .valueError

/-- Shape check for Python `float(data)` on a stripped string: optional
sign, digits with an optional decimal point (at least one digit), and an
optional exponent. -/
def floatShape (l : List Char) : Bool :=
  let l := match l with
    | '+' :: r => r
    | '-' :: r => r
    | r => r
  let (d1, r1) := takeDigits l
  let (d2, r2) :=
    match r1 with
    | '.' :: r => takeDigits r
    | r => ([], r)
  if d1 = [] && d2 = [] then false
  else
    match r2 with
    | [] => true
    | e :: r3 =>
        if e = 'e' || e = 'E' then
          let r4 := match r3 with
            | '+' :: r => r
            | '-' :: r => r
            | r => r
          let (d3, r5) := takeDigits r4
          d3 ≠ [] && r5 = []
        else false

/-- Python `float(data)`: the value is kept as its validated literal
text (the engine only stores it). -/
def pyFloat (data : String) : Except F J :=
  if floatShape data.data then .ok (.jfloat data) else .error .valueError

/-- Days in a month of a (proleptic Gregorian) year. -/
def daysInMonth (y m : Nat) : Nat :=
  if m = 2 then (if y % 4 = 0 && (y % 100 ≠ 0 || y % 400 = 0) then 29 else 28)
  else if m = 4 || m = 6 || m = 9 || m = 11 then 30
  else 31

/-- A `%Y`/`%m`/`%d` style numeric field: all digits, within a length
range. -/
def dtField (s : String) (lo hi : Nat) : Option Nat :=
  if digitsOnly s.data && lo ≤ s.data.length && s.data.length ≤ hi then some (numVal s.data)
  else none

/-- Validate a (year, month, day) triple as `strptime` does. -/
def dtValid (y m d : Nat) : Bool :=
  1 ≤ m && m ≤ 12 && 1 ≤ d && d ≤ daysInMonth y m

/-- Zero-padded rendering to a width. -/
def padNum (n width : Nat) : String :=
  let s := natStr n
  ⟨List.replicate (width - s.data.length) '0'⟩ ++ s

/-- `datetime.strptime(data, '%Y-%m-%d').strftime('%Y-%m-%dT%H:%M:%SZ')`,
modelled on well-formed dates (no claim exercises the datetime
coercions). -/
def dtYmd (data : String) : Except F String :=
  match pySplit data '-' with
  | [ys, ms, ds] =>
      match dtField ys 1 4, dtField ms 1 2, dtField ds 1 2 with
      | some y, some m, some d =>
          if dtValid y m d then .ok (padNum y 4 ++ "-" ++ padNum m 2 ++ "-" ++ padNum d 2 ++ "T00:00:00Z")
          else .error .valueError
      | _, _, _ => .error .valueError
  | _ => .error .valueError

/-- `datetime.strptime(data, '%m/%d/%Y').isoformat()`, modelled on
well-formed dates. -/
def dtMdy (data : String) : Except F String :=
  match pySplit data '/' with
  | [ms, ds, ys] =>
      match dtField ms 1 2, dtField ds 1 2, dtField ys 1 4 with
      | some m, some d, some y =>
          if dtValid y m d then .ok (padNum y 4 ++ "-" ++ padNum m 2 ++ "-" ++ padNum d 2 ++ "T00:00:00")
          else .error .valueError
      | _, _, _ => .error .valueError
  | _ => .error .valueError

/-- The core of `replace_parameter_with_data` acting on the target leaf:
compute `parent_object[key].replace(parameter, data)`, and when the
stripped original leaf is a typed placeholder, the coerced value instead
(following the `result.startswith` dispatch order of the source; `none`
means no branch assigned, leaving the leaf unchanged). -/
def substitute_leaf (leaf : J) (parameter data : String) : Except F (Option J) :=
  match leaf with
  | .jstr s =>
      let result := pyReplace s parameter data
      if isTypedLeaf (pyStrip s) parameter then
        if pyStartsWith result "bool" then .ok (some (.jbool (pyBoolTrue data)))
        else if pyStartsWith result "datetime_YYYY-MM-DD" then
          (fun t => some (J.jstr t)) <$> dtYmd data
        else if pyStartsWith result "datetime_MM/DD/YYYY" then
          (fun t => some (J.jstr t)) <$> dtMdy data
        else if pyStartsWith result "int" then (fun n => some (J.jint n)) <$> pyInt data
        else if pyStartsWith result "float" then (fun v => some v) <$> pyFloat data
        else .ok none
      else .ok (some (.jstr result))
  | _ => .error .attributeError

/-- `replace_parameter_with_data(root_object, keys, parameter, data_row,
col_index)`.  `root_object` is the tree location at `rootPath`; the
Python `col_index` is `None`, a single column index, or (through the
untyped `map_parameter_column.get`) an array binding, whose comparison
with `-1` raises TypeError. -/
def replace_parameter_with_data (tree : J) (rootPath keys : List PKey) (parameter : String)
    (data_row : List String) (col : Option BindVal) : Except F J := do
  let data ← match col with
    | none => pure ""
    | some (.scalar i) =>
        if (-1 : Int) < (i : Int) then (fun c => pyStrip c) <$> rowCell data_row i
        else pure ""
    | some (.array _) => throw F.typeError
  if data.length = 0 then
    return tree
  else
    match keys with
    | [] => do
        let leaf ← treeGet tree rootPath
        let _ ← substitute_leaf leaf parameter data
        return tree
    | _ :: _ => do
        let leaf ← treeGet tree (rootPath ++ keys)
        match (← substitute_leaf leaf parameter data) with
        | some w => treeSet tree (rootPath ++ keys) w
        | none => return tree

/-- Append `k` deep copies of the template element (the growth loop
`while len(array_object) <= index`). -/
def appendCopies (es : JElems) (tmpl : J) : Nat → JElems
  | 0 => es
  | k + 1 => appendCopies (es.push (deepcopy tmpl)) tmpl k

/-- The loop body of `get_root_object`, carrying the absolute path of the
current `array_object` in the tree and the pending `(return_root,
return_keys)` location.  One iteration per index: unwrap the next
template entry, grow the array to cover the index, locate the element
(treating a string element as making the array itself the substitution
target), and step the array cursor (the final `parent_object[key]` read
of each iteration is performed as in the source). -/
def get_root_object_go (tree : J) (arrayPath : List PKey) (entries : List (J × List PKey))
    (indexes : List Nat) (ret : Option (List PKey × List PKey)) :
    Except F (J × List PKey × List PKey) :=
  match indexes with
  | [] =>
      match ret with
      | some (rp, rk) => .ok (tree, rp, rk)
      | none => .error .attributeError
  | index :: restIdx =>
      match entries with
      | [] => .error .indexError
      | (ct0, ck0) :: entRest => do
          let (ct, ck) ←
            match ck0 with
            | [] => throw F.indexError
            | k0 :: ckRest =>
                if k0 = PKey.pn 0 then do
                  let c ← getItem ct0 (PKey.pn 0)
                  pure (c, ckRest)
                else pure (ct0, ck0)
          let arr ← treeGet tree arrayPath
          match arr with
          | .jarr es => do
              let es' := appendCopies es ct (index + 1 - es.length)
              let tree' ← treeSet tree arrayPath (.jarr es')
              let retRootPath := arrayPath ++ [PKey.pn index]
              let rr ← treeGet tree' retRootPath
              let (rp, rk) :=
                match rr with
                | .jstr _ => (arrayPath, [PKey.pn index])
                | _ => (retRootPath, ck)
              let arrayPath' := rp ++ rk
              let _ ← treeGet tree' arrayPath'
              get_root_object_go tree' arrayPath' entRest restIdx (some (rp, rk))
          | _ => .error .attributeError

/-- `get_root_object(root_object_key_list, indexes)`: navigate and grow
nested arrays to the element addressed by `indexes`, returning the
updated tree together with the location of the substitution target.  The
first anchor's root aliases the manifest tree in Python, so navigation
starts from the tree at that anchor's key path. -/
def get_root_object (tree : J) (root_object_key_list : List (J × List PKey))
    (indexes : List Nat) : Except F (J × List PKey × List PKey) :=
  match root_object_key_list with
  | [] => .error .indexError
  | (_, keys0) :: restEntries => get_root_object_go tree keys0 restEntries indexes none

/-- A string leaf still holding both placeholder delimiters (the deletion
test of `clear_non_filled_parameters`). -/
def hasParam (s : String) : Bool :=
  pyFind s "\x7b\x7b" ≥ 0 && pyFind s "\x7d\x7d" ≥ 0

mutual
/-- The `is_item_empty` test: containers all of whose leaves have been
removed; scalars are never empty. -/
def isItemEmpty : J → Bool
  | .jobj fs => isItemEmptyF fs
  | .jarr es => isItemEmptyE es
  | _ => false

/-- All elements empty. -/
def isItemEmptyE : JElems → Bool
  | .nil => true
  | .cons v rest => isItemEmpty v && isItemEmptyE rest

/-- All values empty. -/
def isItemEmptyF : JFields → Bool
  | .nil => true
  | .cons _ v rest => isItemEmpty v && isItemEmptyF rest
end

mutual
/-- The `clear_dict` pass of `clear_non_filled_parameters`: clean values,
delete string values still holding placeholders, and delete dict or list
values that become empty after cleaning. -/
def clearD : JFields → JFields
  | .nil => .nil
  | .cons k v rest =>
      match v with
      | .jobj fs =>
          let c := clearD fs
          if c.length = 0 then clearD rest else .cons k (.jobj c) (clearD rest)
      | .jarr es =>
          let c := JElems.filter (fun e => !isItemEmpty e) (clearL1 es)
          if c.length = 0 then clearD rest else .cons k (.jarr c) (clearD rest)
      | .jstr s => if hasParam s then clearD rest else .cons k v (clearD rest)
      | _ => .cons k v (clearD rest)

/-- The first pass of `clear_list`: clean containers in place and delete
string elements still holding placeholders (its second pass, dropping
recursively empty items, is the filter applied by the callers). -/
def clearL1 : JElems → JElems
  | .nil => .nil
  | .cons v rest =>
      match v with
      | .jobj fs => .cons (.jobj (clearD fs)) (clearL1 rest)
      | .jarr es => .cons (.jarr (JElems.filter (fun e => !isItemEmpty e) (clearL1 es))) (clearL1 rest)
      | .jstr s => if hasParam s then clearL1 rest else .cons v (clearL1 rest)
      | _ => .cons v (clearL1 rest)
end

/-- `clear_non_filled_parameters(ldm)` (a non-dict root would raise
AttributeError on `.items()`). -/
def clear_non_filled_parameters (ldm : J) : Except F J :=
  match ldm with
  | .jobj fs => .ok (.jobj (clearD fs))
  | _ => .error .attributeError

/-- Match one discriminator tag `$$_oneOf_[1-9][0-9]*$$` or
`$$_anyOf_[1-9][0-9]*$$` at the head of the list, returning the
remainder.  Greedy digit matching agrees with the regex because a digit
can never start the closing delimiter. -/
def matchTagAt (l : List Char) : Option (List Char) :=
  let tail :=
    match l with
    | '$' :: '$' :: '_' :: 'o' :: 'n' :: 'e' :: 'O' :: 'f' :: '_' :: r => some r
    | '$' :: '$' :: '_' :: 'a' :: 'n' :: 'y' :: 'O' :: 'f' :: '_' :: r => some r
    | _ => none
  match tail with
  | none => none
  | some r =>
      match r with
      | c :: rest =>
          if '1' ≤ c && c ≤ '9' then
            match (takeDigits rest).2 with
            | '$' :: '$' :: r2 => some r2
            | _ => none
          else none
      | [] => none

/-- The scan of `pattern_remove.sub('', key)`: delete every tag match,
resuming after each deletion.  The fuel dominates the length of the
scanned list (each step consumes at least one character); callers pass
`length + 1`. -/
def removeTagsL (fuel : Nat) (l : List Char) : List Char :=
  match fuel with
  | 0 => l
  | fuel + 1 =>
      match l with
      | [] => []
      | c :: rest =>
          match matchTagAt (c :: rest) with
          | some rem => removeTagsL fuel rem
          | none => c :: removeTagsL fuel rest

/-- `pattern_remove.sub('', key)` on a string. -/
def removeTags (s : String) : String :=
  ⟨removeTagsL (s.data.length + 1) s.data⟩

/-- The rename list collected by `remove_dict_tags`: original keys, in
order, whose tag-stripped form differs.  A non-string key would raise
TypeError in `re.sub`. -/
def renamesOf : JFields → Except F (List (PKey × PKey))
  | .nil => .ok []
  | .cons k _ rest => do
      let tailR ← renamesOf rest
      match k with
      | .ps s =>
          let s' := removeTags s
          if s' ≠ s then pure ((PKey.ps s, PKey.ps s') :: tailR) else pure tailR
      | .pn _ => throw F.typeError

/-- Apply the collected renames: `d[new_key] = d.pop(old_key)`, faulting
when the stripped key already holds a non-null value. -/
def applyRenames (fs : JFields) : List (PKey × PKey) → Except F JFields
  | [] => .ok fs
  | (old, new) :: rest =>
      if (pyGet fs new).isSome then .error .duplicateAttributes
      else
        match fs.get? old with
        | some v => applyRenames ((fs.del old).set new v) rest
        | none => .error .keyError

mutual
/-- The value-recursion of `remove_dict_tags`: descend into dict and list
values, applying the per-dict rename pass at every dict. -/
def remTagsFs : JFields → Except F JFields
  | .nil => .ok .nil
  | .cons k v rest => do
      let v' ←
        match v with
        | .jobj fs => do
            let fs' ← remTagsFs fs
            let rn ← renamesOf fs
            (fun x => J.jobj x) <$> applyRenames fs' rn
        | .jarr es => (fun x => J.jarr x) <$> remTagsEs es
        | _ => pure v
      let rest' ← remTagsFs rest
      pure (.cons k v' rest')

/-- The element recursion of `remove_list_tags`. -/
def remTagsEs : JElems → Except F JElems
  | .nil => .ok .nil
  | .cons v rest => do
      let v' ←
        match v with
        | .jobj fs => do
            let fs' ← remTagsFs fs
            let rn ← renamesOf fs
            (fun x => J.jobj x) <$> applyRenames fs' rn
        | .jarr es => (fun x => J.jarr x) <$> remTagsEs es
        | _ => pure v
      let rest' ← remTagsEs rest
      pure (.cons v' rest')
end

/-- `remove_special_tags(ldm)`. -/
def remove_special_tags (ldm : J) : Except F J :=
  match ldm with
  | .jobj fs => do
      let fs' ← remTagsFs fs
      let rn ← renamesOf fs
      (fun x => J.jobj x) <$> applyRenames fs' rn
  | _ => .error .attributeError

/-- Python `len` (lists, dicts and strings; other values raise
TypeError). -/
def pyLen : J → Except F Nat
  | .jstr s => .ok s.length
  | .jarr es => .ok es.length
  | .jobj fs => .ok fs.length
  | _ => .error .typeError

/-- Fuel for the required-field back-fill: every recursive call either
descends into the source template or walks a destination spine whose
length is bounded by the original sizes plus the insertions (at most one
empty container per source node), so this product strictly dominates the
call-chain length and exhaustion is unreachable. -/
def addFuel (des src : J) : Nat :=
  (jsize src + 1) * (jsize des + jsize src + 2)

mutual
/-- `add_fields_dict(des_dict, src_dict)`: inject required keys that are
absent (and not `$`-optional) as empty containers or literal defaults,
then recurse where both sides hold same-shaped containers. -/
def addD (fuel : Nat) (des src : JFields) : Except F JFields :=
  match fuel with
  | 0 => .error .fuelExhausted
  | fuel + 1 =>
      match src with
      | .nil => .ok des
      | .cons k0 vSrc rest => do
          let s ←
            match k0 with
            | .ps s => pure s
            | .pn _ => throw F.attributeError
          let optional := pyStartsWith s "$"
          let kk := PKey.ps (if optional then pyDrop s 1 else s)
          let des :=
            if !des.hasKey kk && !optional then
              des.set kk
                (match vSrc with
                 | .jobj _ => .jobj .nil
                 | .jarr _ => .jarr .nil
                 | v => v)
            else des
          let des ←
            match pyGet des kk, vSrc with
            | some (.jobj dfs), .jobj sfs =>
                (fun x => des.set kk (J.jobj x)) <$> addD fuel dfs sfs
            | some (.jarr dels), .jarr sels =>
                (fun x => des.set kk (J.jarr x)) <$> addL fuel dels sels
            | _, _ => pure des
          addD fuel des rest

/-- `add_fields_list(des_list, src_list)`: when both lists are non-empty,
apply every source item to every destination item of the same shape. -/
def addL (fuel : Nat) (des src : JElems) : Except F JElems :=
  match fuel with
  | 0 => .error .fuelExhausted
  | fuel + 1 =>
      if src.length = 0 || des.length = 0 then .ok des
      else addLGo fuel des src

/-- The outer loop of `add_fields_list` over source items. -/
def addLGo (fuel : Nat) (des : JElems) (src : JElems) : Except F JElems :=
  match fuel with
  | 0 => .error .fuelExhausted
  | fuel + 1 =>
      match src with
      | .nil => .ok des
      | .cons s rest => do
          let des' ← addSrcItem fuel des s
          addLGo fuel des' rest

/-- The inner loop of `add_fields_list`: apply one source item to each
destination item of the same shape. -/
def addSrcItem (fuel : Nat) (des : JElems) (s : J) : Except F JElems :=
  match fuel with
  | 0 => .error .fuelExhausted
  | fuel + 1 =>
      match des with
      | .nil => .ok .nil
      | .cons d rest => do
          let d' ←
            match d, s with
            | .jobj dfs, .jobj sfs => (fun x => J.jobj x) <$> addD fuel dfs sfs
            | .jarr dels, .jarr sels => (fun x => J.jarr x) <$> addL fuel dels sels
            | _, _ => pure d
          let rest' ← addSrcItem fuel rest s
          pure (.cons d' rest')
end

/-- `add_required_fields(ldm, required_template)`: nothing when the
required template is absent or empty; otherwise the dict back-fill (a
non-dict required template raises AttributeError on `.items()`). -/
def add_required_fields (ldm : J) (required_template : Option J) : Except F J :=
  match required_template with
  | none => .ok ldm
  | some rt => do
      let n ← pyLen rt
      if n = 0 then .ok ldm
      else
        match rt with
        | .jobj sfs =>
            match ldm with
            | .jobj dfs => (fun x => J.jobj x) <$> addD (addFuel ldm rt) dfs sfs
            | _ => .error .typeError
        | _ => .error .attributeError

/-- Python truthiness of an optional string argument (absent or empty is
falsy). -/
def truthy : Option String → Bool
  | none => false
  | some s => s.length ≠ 0

/-- `set_acl_values(manifest, acl_viewer, acl_owner)`: drop any existing
`acl` section and rebuild it from the supplied values (non-dict
manifests are left unchanged). -/
def set_acl_values (manifest : J) (acl_viewer acl_owner : Option String) : J :=
  match manifest with
  | .jobj fs =>
      let fs := fs.del (.ps "acl")
      let acl : JFields :=
        (if truthy acl_viewer then
          JFields.cons (.ps "viewers") (.jarr (.cons (.jstr (acl_viewer.getD "")) .nil)) .nil
         else .nil)
      let acl :=
        if truthy acl_owner then
          acl.set (.ps "owners") (.jarr (.cons (.jstr (acl_owner.getD "")) .nil))
        else acl
      .jobj (fs.set (.ps "acl") (.jobj acl))
  | m => m

/-- `set_legal_tag(manifest, legal_tag)`: overwrite the tag fields of the
existing `legal` dict; `manifest.get('legal')` answering `None` (absent
or null) or a non-dict makes the subscript assignment raise TypeError. -/
def set_legal_tag (manifest : J) (legal_tag : String) : Except F J :=
  match manifest with
  | .jobj fs =>
      match pyGet fs (.ps "legal") with
      | some (.jobj lf) =>
          let lf := lf.set (.ps "legaltags") (.jarr (.cons (.jstr legal_tag) .nil))
          let lf := lf.set (.ps "otherRelevantDataCountries") (.jarr (.cons (.jstr "US") .nil))
          .ok (.jobj (fs.set (.ps "legal") (.jobj lf)))
      | _ => .error .typeError
  | m => .ok m

/-- The array-clearing pass of `create_manifest_from_row`: for every
occurrence nested in arrays, reset the outermost anchor's target to an
empty list. -/
def emptyTopArraysOccs (tree : J) : List Occ → Except F J
  | [] => .ok tree
  | occ :: rest => do
      let tree' ←
        match occ.rootList with
        | [] => pure tree
        | (_, topKeys) :: _ => treeSet tree topKeys (.jarr .nil)
      emptyTopArraysOccs tree' rest

/-- The array-clearing pass over the whole index. -/
def emptyTopArrays (tree : J) : Params → Except F J
  | [] => .ok tree
  | (_, occs) :: rest => do
      let tree' ← emptyTopArraysOccs tree occs
      emptyTopArrays tree' rest

/-- The array-parameter substitution loop over the bound coordinate
entries. -/
def substArray (tree : J) (nrl : List (J × List PKey)) (parameter : String)
    (data_row : List String) : List AEntry → Except F J
  | [] => .ok tree
  | e :: rest => do
      let (tree', rp, rk) ← get_root_object tree nrl e.coords
      let tree'' ← replace_parameter_with_data tree' rp rk parameter data_row
        (some (.scalar e.col))
      substArray tree'' nrl parameter data_row rest

/-- The substitution pass over the occurrences of one parameter. -/
def substOccs (tree : J) (parameter : String) (binds : BindMap) (data_row : List String) :
    List Occ → Except F J
  | [] => .ok tree
  | occ :: rest => do
      let tree' ←
        if occ.rootList.length = 0 then
          replace_parameter_with_data tree [] occ.keys parameter data_row
            (bindLookup binds parameter)
        else
          match bindLookup binds parameter with
          | none => throw F.typeError
          | some (.scalar _) => throw F.typeError
          | some (.array entries) =>
              substArray tree (occ.rootList ++ [(occ.root, occ.keys)]) parameter data_row entries
      substOccs tree' parameter binds data_row rest

/-- The substitution pass over the whole index. -/
def substAll (tree : J) (binds : BindMap) (data_row : List String) : Params → Except F J
  | [] => .ok tree
  | (p, occs) :: rest => do
      let tree' ← substOccs tree p binds data_row occs
      substAll tree' binds data_row rest

/-- `create_manifest_from_row`: deep-copy the template, re-derive and
assert the parameter index, clear the anchored arrays, substitute every
occurrence, prune unfilled parameters, strip discriminator tags,
back-fill required fields, and set ACL and legal metadata. -/
def create_manifest_from_row (root_template : J) (required_template : Option J)
    (parameters_object : Params) (map_parameter_column : BindMap) (data_row : List String)
    (acl_viewer acl_owner legal_tag : Option String) : Except F J := do
  let ldm := deepcopy root_template
  let new_parameters_object ← parse_template_parameters ldm
  if paramsEq new_parameters_object parameters_object = false then throw F.assertionError
  let ldm ← emptyTopArrays ldm new_parameters_object
  let ldm ← substAll ldm map_parameter_column data_row new_parameters_object
  let ldm ← clear_non_filled_parameters ldm
  let ldm ← remove_special_tags ldm
  let ldm ← add_required_fields ldm required_template
  let ldm := if truthy acl_viewer || truthy acl_owner then
      set_acl_values ldm acl_viewer acl_owner
    else ldm
  let ldm ← if truthy legal_tag then set_legal_tag ldm (legal_tag.getD "") else pure ldm
  return ldm

/-! The ManifestAssembler: `create_manifest_from_csv`.  The embedding
takes the parsed CSV rows (header first) in place of the file, and
covers the configurations without schema validation and without the
namespace rewrite (`schema_path = None`, `schema_ns_name = None`), which
are the code paths the claims concern. -/

/-- Python `str.endswith`. -/
def pyEndsWith (s pat : String) : Bool :=
  pfx pat.data.reverse s.data.reverse

/-- The value must be a string (a `.split` or `.replace` on anything
else raises AttributeError). -/
def asStr : J → Except F String
  | .jstr s => .ok s
  | _ => .error .attributeError

/-- Build a `JElems` from a Lean list. -/
def JElems.ofList : List J → JElems
  | [] => .nil
  | v :: rest => .cons v (JElems.ofList rest)

/-- The reserved generation directives extracted from the template top
level (lines 527-555 of the source). -/
structure Directives where
  schema_id : Option J
  required : Option J
  array_parent : Option J
  object_parent : Option J
  kind_parent : Option J
deriving Repr

/-- The `get`-then-conditional-`del` idiom of the directive extraction:
the key is removed exactly when `dict.get` answered something other than
`None`. -/
def delIfPresent (fs : JFields) (q : PKey) : JFields :=
  match pyGet fs q with
  | some _ => fs.del q
  | none => fs

/-- The `$required_template` removal of the source, which deletes the
key named by the retrieved VALUE instead of `$required_template` itself:
a dict or list value raises TypeError as an unhashable key, any other
value that is not a present string key raises KeyError, and only a
string value naming a present key deletes (that other key). -/
def reqDelete (fs : JFields) : Except F JFields :=
  match pyGet fs (.ps "$required_template") with
  | none => .ok fs
  | some (.jstr s) =>
      if fs.hasKey (.ps s) then .ok (fs.del (.ps s)) else .error .keyError
  | some (.jobj _) => .error .typeError
  | some (.jarr _) => .error .typeError
  | some _ => .error .keyError

/-- The directive extraction of `create_manifest_from_csv` (lines
527-555): read and remove `$schema`, attempt the (misdirected)
`$required_template` removal, then read and remove `$array_parent`,
`$object_parent` and `$kind_parent`. -/
def extract_directives (root_template0 : J) : Except F (J × Directives) := do
  let fs ← match root_template0 with
    | .jobj fs => pure fs
    | _ => throw F.attributeError
  let schema_id := pyGet fs (.ps "$schema")
  let fs := delIfPresent fs (.ps "$schema")
  let reqT := pyGet fs (.ps "$required_template")
  let fs ← reqDelete fs
  let ap := pyGet fs (.ps "$array_parent")
  let fs := delIfPresent fs (.ps "$array_parent")
  let op := pyGet fs (.ps "$object_parent")
  let fs := delIfPresent fs (.ps "$object_parent")
  let kp := pyGet fs (.ps "$kind_parent")
  let fs := delIfPresent fs (.ps "$kind_parent")
  return (.jobj fs, ⟨schema_id, reqT, ap, op, kp⟩)

/-- Insert the numeric suffix before the extension: the part before the
last dot gains `_k`, or the whole name does when there is no dot. -/
def suffixName (name : String) (k : Nat) : String :=
  match (pySplit name '.').reverse with
  | last :: sl :: before => joinCh '.' ((last :: (sl ++ "_" ++ natStr k) :: before).reverse)
  | _ => name ++ "_" ++ natStr k

/-- The `while output_file.lower() in processed_lower` renaming loop.
Every generated candidate is strictly longer than the previous one, so
each member of `processed_lower` can match at most once and
`processed_lower.length + 1` fuel is never exhausted. -/
def resolveLoop (fuel : Nat) (processed_lower : List String) (name : String) (k : Nat) : String :=
  match fuel with
  | 0 => name
  | fuel + 1 =>
      if processed_lower.contains (pyLower name) then
        resolveLoop fuel processed_lower (suffixName name k) (k + 1)
      else name

/-- Output-name resolution (lines 646-658): an exact duplicate logs a
duplicate-row warning and keeps the name unchanged (the later write
overwrites); otherwise case-insensitive collisions are resolved by the
incrementing numeric suffix. -/
def resolve_output_file (processed processed_lower : List String) (output_file : String) :
    String × Bool :=
  if processed.contains output_file then (output_file, true)
  else (resolveLoop (processed_lower.length + 1) processed_lower output_file 1, false)

/-- The optional `kind` entry of a parent wrapper. -/
def kindFieldsOf (kind_parent : Option J) : Except F JFields :=
  match kind_parent with
  | some k => do
      let n ← pyLen k
      if n > 0 then pure (JFields.cons (.ps "kind") k .nil) else pure .nil
  | none => pure .nil

/-- The nested dicts below the first parent segment (intermediate
segments are stripped, the final segment is used verbatim as in the
source). -/
def innerChain : List String → J → J
  | [], leaf => leaf
  | [last], leaf => J.jobj (.cons (.ps last) leaf .nil)
  | item :: rest, leaf => J.jobj (.cons (.ps (pyStrip item)) (innerChain rest leaf) .nil)

/-- Wrap a value under a dot-separated parent path next to the optional
`kind` entry. -/
def wrapParent (kf : JFields) (items : List String) (leaf : J) : J :=
  match items with
  | [] => J.jobj kf
  | [last] => J.jobj (kf.set (.ps last) leaf)
  | item :: rest => J.jobj (kf.set (.ps (pyStrip item)) (innerChain rest leaf))

/-- The group configuration built before the loop (lines 557-576). -/
structure GroupCfg where
  fileName : String
  skeleton : J
  bufPath : List PKey
  warned : Bool
deriving Repr

/-- The group initialisation: warn when the array parent is missing or
empty, normalise the group file name, and build the skeleton.  The
skeleton build assigns every intermediate dict into the TOP dict
(`group_lm[parent_item] = dict()` in line 573), so a parent path of one
or two segments works and three or more segments raise KeyError at the
second descent. -/
def initGroup (output_path group_filename : String) (array_parent kind_parent : Option J) :
    Except F GroupCfg := do
  let warned ←
    match array_parent with
    | none => pure true
    | some ap => do
        let n ← pyLen ap
        pure (n == 0)
  let gf := if pyEndsWith group_filename ".json" then group_filename
            else group_filename ++ ".json"
  let ofn := pyJoin output_path gf
  let kf ← kindFieldsOf kind_parent
  let apStr ←
    match array_parent with
    | some v => asStr v
    | none => throw F.attributeError
  let items := pySplit apStr '.'
  match items.reverse with
  | [] => throw F.indexError
  | [last] => pure ⟨ofn, J.jobj (kf.set (.ps last) (.jarr .nil)), [.ps last], warned⟩
  | [last, first] =>
      let f := pyStrip first
      pure ⟨ofn,
        J.jobj ((kf.set (.ps f) (J.jobj .nil)).set (.ps f)
          (J.jobj (JFields.cons (.ps last) (.jarr .nil) .nil))),
        [.ps f, .ps last], warned⟩
  | _ => throw F.keyError

/-- The shared inputs every row's materialization reads: the template,
the required-field template, the parameter index and the column
bindings, all computed once before the loop. -/
structure Shared where
  template : J
  required : Option J
  params : Params
  binds : BindMap

/-- The per-run configuration of the row loop. -/
structure RunCfg where
  input_csv : String
  output_path : String
  array_parent : Option J
  object_parent : Option J
  kind_parent : Option J
  hasGroup : Bool
  acl_viewer : Option String
  acl_owner : Option String
  legal_tag : Option String

/-- The loop state: the shared inputs plus the counters, the name sets,
the output files written so far, the per-row faults (row number and
fault), the duplicate-row warnings and the group buffer. -/
structure LoopSt where
  shared : Shared
  row_count : Nat
  empty_row_count : Nat
  processed : List String
  processed_lower : List String
  files : List (String × J)
  faults : List (Nat × F)
  dup_warns : List Nat
  group_buf : List J

/-- Write a file (overwriting an existing one at the same path). -/
def fsWrite : List (String × J) → String → J → List (String × J)
  | [], n, v => [(n, v)]
  | (m, w) :: rest, n, v => if m = n then (m, v) :: rest else (m, w) :: fsWrite rest n v

/-- `os.remove` of a path, ignored when absent (as in the handler). -/
def fsRemove : List (String × J) → String → List (String × J)
  | [], _ => []
  | (m, w) :: rest, n => if m = n then rest else (m, w) :: fsRemove rest n

/-- Read back a written file. -/
def fsLook : List (String × J) → String → Option J
  | [], _ => none
  | (m, w) :: rest, n => if m = n then some w else fsLook rest n

/-- `set.add` on the processed-name sets. -/
def setAdd (l : List String) (s : String) : List String :=
  if l.contains s then l else l ++ [s]

/-- The parent wrapping of one row's manifest (lines 660-686): with an
array parent, append to the group when one is configured, otherwise wrap
in the array parent chain; with only an object parent, wrap in the
object chain.  The boolean reports the group append. -/
def wrapRow (cfg : RunCfg) (lm : J) : Except F (J × Bool) :=
  match cfg.array_parent with
  | some ap =>
      if cfg.hasGroup then .ok (lm, true)
      else do
        let kf ← kindFieldsOf cfg.kind_parent
        let s ← asStr ap
        .ok (wrapParent kf (pySplit s '.') (.jarr (.cons lm .nil)), false)
  | none =>
      match cfg.object_parent with
      | some op => do
          let kf ← kindFieldsOf cfg.kind_parent
          let s ← asStr op
          .ok (wrapParent kf (pySplit s '.') lm, false)
      | none => .ok (lm, false)

/-- The `try` body of one non-empty row: materialize, name the output
file from the `$filename` leaf (the source calls `.replace` on the
`.get` result before its `None` check, so an absent, null or non-string
leaf raises AttributeError), resolve duplicates, and wrap.  Errors carry
the value the `output_file` variable holds when the exception is raised,
which the handler's `os.remove` uses. -/
def row_body (cfg : RunCfg) (sh : Shared) (processed processed_lower : List String)
    (data_row : List String) (default_file : String) :
    Except (F × String) (String × J × Bool × Bool) :=
  match create_manifest_from_row sh.template sh.required sh.params sh.binds data_row
      cfg.acl_viewer cfg.acl_owner cfg.legal_tag with
  | .error e => .error (e, default_file)
  | .ok lm =>
      match lm with
      | .jobj fs =>
          match pyGet fs (.ps "$filename") with
          | some (.jstr s0) =>
              let s := pyReplaceChar (pyReplaceChar s0 '/' '-') '\\' '-'
              let output_file := pyJoin cfg.output_path s
              let lm := J.jobj (fs.del (.ps "$filename"))
              let (output_file, warned) :=
                resolve_output_file processed processed_lower output_file
              match wrapRow cfg lm with
              | .error e => .error (e, output_file)
              | .ok (lm, toGroup) => .ok (output_file, lm, warned, toGroup)
          | _ => .error (.attributeError, default_file)
      | _ => .error (.attributeError, default_file)

/-- Fold the outcome of one row body into the loop state: a fault is
logged and the file at the current output name removed, a success writes
the file (unless a group is configured) and registers the name. -/
def row_finish (cfg : RunCfg) (st : LoopSt) (rc : Nat)
    (res : Except (F × String) (String × J × Bool × Bool)) : LoopSt :=
  match res with
  | .error (e, fname) =>
      { st with
        row_count := rc
        faults := st.faults ++ [(rc, e)]
        files := fsRemove st.files fname }
  | .ok (output_file, lm, warned, toGroup) =>
      { st with
        row_count := rc
        dup_warns := if warned then st.dup_warns ++ [rc] else st.dup_warns
        group_buf := if toGroup then st.group_buf ++ [lm] else st.group_buf
        files := if cfg.hasGroup then st.files else fsWrite st.files output_file lm
        processed := setAdd st.processed output_file
        processed_lower := setAdd st.processed_lower (pyLower output_file) }

/-- One iteration of the row loop: count the row, skip it when all cells
are blank, otherwise run the row body and fold its outcome into the
state. -/
def row_step (cfg : RunCfg) (st : LoopSt) (data_row : List String) : LoopSt :=
  let rc := st.row_count + 1
  if data_row.all (fun c => (pyStrip c).length = 0) then
    { st with row_count := rc, empty_row_count := st.empty_row_count + 1 }
  else
    let default_file := pyJoin cfg.output_path
      (pyDropRight (pyBasename cfg.input_csv) 4 ++ "_" ++ natStr rc ++ ".json")
    row_finish cfg st rc
      (row_body cfg st.shared st.processed st.processed_lower data_row default_file)

/-- The loop over the data rows. -/
def process_rows_go (cfg : RunCfg) (st : LoopSt) : List (List String) → LoopSt
  | [] => st
  | r :: rest => process_rows_go cfg (row_step cfg st r) rest

/-- The CSV row loop (lines 601-715): skip the header row, then process
every data row in order. -/
def process_rows (cfg : RunCfg) (st : LoopSt) (rows : List (List String)) : LoopSt :=
  match rows with
  | [] => st
  | _header :: dataRows => process_rows_go cfg st dataRows

/-- The observable outcome of a run: the final loop state and the group
document, if one was configured. -/
structure RunOut where
  finalSt : LoopSt
  group_out : Option (String × J)

/-- `create_manifest_from_csv` for the configurations without schema
validation and namespace rewriting: extract the directives, merge the
command-line overrides (a non-empty argument wins over the template
directive), initialise the optional group, index the template, bind the
CSV columns and run the row loop, finally assembling the group document
from the buffered manifests. -/
def create_manifest_from_csv_rows (input_csv : String) (template0 : J)
    (rows : List (List String)) (output_path : String) (required_arg : Option J)
    (array_parent_arg object_parent_arg : Option String) (group_filename : Option String)
    (acl_viewer acl_owner legal_tag : Option String) : Except F RunOut := do
  let (t, dirs) ← extract_directives template0
  let required := match required_arg with
    | some r => some r
    | none => dirs.required
  let ap := match array_parent_arg with
    | some s => if s.length > 0 then some (J.jstr s) else dirs.array_parent
    | none => dirs.array_parent
  let op := match object_parent_arg with
    | some s => if s.length > 0 then some (J.jstr s) else dirs.object_parent
    | none => dirs.object_parent
  let kp := dirs.kind_parent
  let group ← match group_filename with
    | some g =>
        if g.length > 0 then (fun x => some x) <$> initGroup output_path g ap kp
        else pure none
    | none => pure none
  let params ← parse_template_parameters t
  let binds ← map_csv_column_names_to_parameters rows params
  let cfg : RunCfg :=
    ⟨input_csv, output_path, ap, op, kp, group.isSome, acl_viewer, acl_owner, legal_tag⟩
  let sh : Shared := ⟨t, required, params, binds⟩
  let st0 : LoopSt := ⟨sh, 0, 0, [], [], [], [], [], []⟩
  let stF := process_rows cfg st0 rows
  let gout ← match group with
    | some gc => do
        let doc ← treeSet gc.skeleton gc.bufPath (.jarr (JElems.ofList stF.group_buf))
        pure (some (gc.fileName, doc))
    | none => pure none
  return ⟨stF, gout⟩

/-! Concrete templates used by the claim theorems. -/

/-- The template `{"a": "{{x}}"}`. -/
def tmplA : J := J.jobj (.cons (.ps "a") (.jstr "\x7b\x7bx\x7d\x7d") .nil)

/-- The template `{"b": "bool({{x}})"}`. -/
def tmplBool : J := J.jobj (.cons (.ps "b") (.jstr "bool(\x7b\x7bx\x7d\x7d)") .nil)

/-- The template `{"items": [{"v": "{{x}}"}]}`. -/
def tmplItems : J :=
  J.jobj (.cons (.ps "items")
    (.jarr (.cons (J.jobj (.cons (.ps "v") (.jstr "\x7b\x7bx\x7d\x7d") .nil)) .nil)) .nil)

/-- The placeholder text `{{x}}`. -/
def paramX : String := "\x7b\x7bx\x7d\x7d"

/-! Helper lemmas about the row loop. -/

/-- One loop iteration never changes the shared inputs: every assignment
of the source's row processing targets the fresh copy, the output
bookkeeping or the group buffer. -/
theorem row_step_shared (cfg : RunCfg) (st : LoopSt) (r : List String) :
    (row_step cfg st r).shared = st.shared := by
  have hf : ∀ rc res, (row_finish cfg st rc res).shared = st.shared := by
    intro rc res
    rcases res with ⟨e, fname⟩ | ⟨a, b, c, d⟩ <;> rfl
  unfold row_step
  split
  · rfl
  · exact hf _ _

/-- The data-row loop never changes the shared inputs. -/
theorem process_rows_go_shared (cfg : RunCfg) :
    ∀ (rows : List (List String)) (st : LoopSt),
      (process_rows_go cfg st rows).shared = st.shared
  | [], _ => rfl
  | r :: rest, st => by
      rw [process_rows_go, process_rows_go_shared cfg rest (row_step cfg st r),
        row_step_shared]

/-- One loop iteration counts exactly one row. -/
theorem row_step_count (cfg : RunCfg) (st : LoopSt) (r : List String) :
    (row_step cfg st r).row_count = st.row_count + 1 := by
  have hf : ∀ res, (row_finish cfg st (st.row_count + 1) res).row_count = st.row_count + 1 := by
    intro res
    rcases res with ⟨e, fname⟩ | ⟨a, b, c, d⟩ <;> rfl
  unfold row_step
  split
  · rfl
  · exact hf _

/-- The data-row loop counts every row it is given. -/
theorem process_rows_go_count (cfg : RunCfg) :
    ∀ (rows : List (List String)) (st : LoopSt),
      (process_rows_go cfg st rows).row_count = st.row_count + rows.length
  | [], _ => rfl
  | r :: rest, st => by
      rw [process_rows_go, process_rows_go_count cfg rest (row_step cfg st r),
        row_step_count]
      simp only [List.length_cons]
      omega

mutual
/-- `copy.deepcopy` returns a structurally identical tree. -/
theorem deepcopy_eq : (t : J) → deepcopy t = t
  | .jnull => rfl
  | .jbool _ => rfl
  | .jint _ => rfl
  | .jfloat _ => rfl
  | .jstr _ => rfl
  | .jarr es => by rw [deepcopy, deepcopyE_eq]
  | .jobj fs => by rw [deepcopy, deepcopyF_eq]

/-- Deep copies of lists are structurally identical. -/
theorem deepcopyE_eq : (es : JElems) → deepcopyE es = es
  | .nil => rfl
  | .cons v rest => by rw [deepcopyE, deepcopy_eq, deepcopyE_eq]

/-- Deep copies of dicts are structurally identical. -/
theorem deepcopyF_eq : (fs : JFields) → deepcopyF fs = fs
  | .nil => rfl
  | .cons k v rest => by rw [deepcopyF, deepcopy_eq, deepcopyF_eq]
end

/-- C6: re-deriving the parameter index from an independent deep copy of
any template yields an index that equals, field for field, the index of
the original: the deep copy is structurally identical and the indexer is
a function of the tree. -/
theorem claim6_idempotent_reindex (t : J) :
    parse_template_parameters (deepcopy t) = parse_template_parameters t := by
  rw [deepcopy_eq]

/-- C9: materializing rows leaves the shared inputs untouched — after
the loop runs over any CSV, the template, the required-field template,
the parameter index and the column bindings held in the loop state are
the ones it started with (every row works on its own deep copy; the
translation of each assignment in the source targets the copy or the
loop's own bookkeeping, never the shared state). -/
theorem claim9_shared_inputs_unchanged (cfg : RunCfg) (st : LoopSt)
    (rows : List (List String)) :
    (process_rows cfg st rows).shared = st.shared := by
  cases rows with
  | nil => rfl
  | cons h t => exact process_rows_go_shared cfg t st

/-- The loop configuration of the structural-drift counterexample. -/
def c1cfg : RunCfg := ⟨"data.csv", "out", none, none, none, false, none, none, none⟩

/-- A loop state whose supplied parameter index (empty) disagrees with
the index of the template `{"a": "{{x}}"}`, so every row materialization
raises the structural-drift assertion. -/
def c1st : LoopSt := ⟨⟨tmplA, none, [], []⟩, 0, 0, [], [], [], [], [], []⟩

/-- C1 counterexample: with a parameter index that differs from the one
re-derived from the template, the first data row raises the
structural-drift assertion — and the run does NOT abort: the fault is
caught by the per-row handler and the second data row is processed (and
faults) as well, so two row faults are recorded where an aborting run
would have recorded at most the first. -/
theorem claim1_counterexample :
    (process_rows c1cfg c1st [["x"], ["1"], ["2"]]).faults
        = [(1, F.assertionError), (2, F.assertionError)] ∧
      (process_rows c1cfg c1st [["x"], ["1"], ["2"]]).row_count = 2 := by
  constructor <;> rfl

/-- C1 amended: a structural-drift assertion raised while materializing a
row is caught by the per-row `except` handler like every other row
exception; the row is recorded as faulted and the loop continues, so the
run examines every data row after the header no matter which rows
fault. -/
theorem claim1_amended (cfg : RunCfg) (st : LoopSt) (rows : List (List String)) :
    (process_rows cfg st rows).row_count = st.row_count + (rows.length - 1) := by
  cases rows with
  | nil => simp [process_rows]
  | cons h t => simp [process_rows, process_rows_go_count]

/-- C2: evaluating the run at the failing input.  The template
`{"a": "{{x}}"}` has no `$filename` leaf; the CSV has header `x` and one
data row `5`.  The row materializes successfully, but the naming code
calls `.replace` on the result of `lm.get('$filename')` before checking
it for `None`, so the row aborts with AttributeError: no file is written
(the claimed fallback name `data_1.json` is never used) and the row is
recorded as faulted. -/
theorem claim2_code_evaluation :
    (create_manifest_from_csv_rows "data.csv" tmplA [["x"], ["5"]] "out"
        none none none none none none none).map
          (fun r => (r.finalSt.files, r.finalSt.faults)) =
      .ok ([], [(1, F.attributeError)]) := rfl

/-- The expected output of the 1-D array expansion example. -/
def c7expected : J :=
  J.jobj (.cons (.ps "items")
    (.jarr (.cons (J.jobj (.cons (.ps "v") (.jstr "a") .nil))
      (.cons (J.jobj (.cons (.ps "v") (.jstr "b") .nil))
        (.cons (J.jobj (.cons (.ps "v") (.jstr "c") .nil)) .nil)))) .nil)

/-- C7: for the template `{"items": [{"v": "{{x}}"}]}` with CSV headers
`x_1,x_2,x_3` and the data row `a,b,c`, the materialized manifest's
`items` array is exactly `[{"v":"a"},{"v":"b"},{"v":"c"}]`: the
single-element template array is cleared and grown by appending deep
copies of the template element, each coordinate substituted from its
bound column. -/
theorem claim7_array_expansion :
    (do
      let p ← parse_template_parameters tmplItems
      let b ← map_csv_column_names_to_parameters [["x_1", "x_2", "x_3"], ["a", "b", "c"]] p
      create_manifest_from_row tmplItems none p b ["a", "b", "c"] none none none) =
    Except.ok c7expected := rfl

/-- The template `{"$id": "X", "$schema": "S", "$array_parent": "p",
"a": "b"}` of the directive-extraction counterexample. -/
def c3tmpl : J :=
  J.jobj (.cons (.ps "$id") (.jstr "X")
    (.cons (.ps "$schema") (.jstr "S")
    (.cons (.ps "$array_parent") (.jstr "p")
    (.cons (.ps "a") (.jstr "b") .nil))))

/-- C3 counterexample: directive extraction does not remove `$id` — after
extraction the template still contains the `$id` entry (the schema-id key
the code consumes is `$schema`), so indexing does not run on a template
with `$id` removed.  Moreover the attempted removal of
`$required_template` uses the retrieved VALUE as the deletion key, so a
template carrying a dict-valued `$required_template` makes the run abort
with TypeError instead of consuming the directive. -/
theorem claim3_counterexample :
    (extract_directives c3tmpl).map (fun r => r.1) =
        .ok (J.jobj (.cons (.ps "$id") (.jstr "X") (.cons (.ps "a") (.jstr "b") .nil))) ∧
      extract_directives
          (J.jobj (.cons (.ps "$required_template") (J.jobj .nil)
            (.cons (.ps "a") (.jstr "b") .nil))) = .error F.typeError := by
  constructor <;> rfl

/-- C4 counterexample: supplying a legal tag while the materialized
manifest has no `legal` section does not produce
`legal.legaltags = [tag]` — `set_legal_tag` subscripts the `None` result
of `manifest.get('legal')`, so the row materialization fails with
TypeError instead of returning a manifest. -/
theorem claim4_counterexample :
    (do
      let p ← parse_template_parameters tmplA
      create_manifest_from_row tmplA none p [(paramX, .scalar 0)] ["5"] none none
        (some "T")) = Except.error F.typeError := rfl

/-! Dictionary lemmas (JSON objects loaded by `json.load` have distinct
keys, which `keysUnique` captures). -/

/-- All keys of a dict are distinct. -/
def keysUnique : JFields → Bool
  | .nil => true
  | .cons k _ rest => !rest.hasKey k && keysUnique rest

/-- Looking up a key just set finds the new value. -/
theorem get?_set_self : (fs : JFields) → (q : PKey) → (v : J) → (fs.set q v).get? q = some v
  | .nil, q, v => by simp [JFields.set, JFields.get?]
  | .cons k w rest, q, v => by
      by_cases h : k = q <;> simp [JFields.set, JFields.get?, h, get?_set_self rest q v]

/-- Setting one key leaves the others' lookups unchanged. -/
theorem get?_set_ne : (fs : JFields) → (p q : PKey) → (v : J) → p ≠ q →
    (fs.set q v).get? p = fs.get? p
  | .nil, p, q, v, h => by
      simp only [JFields.set, JFields.get?, if_neg (Ne.symm h)]
  | .cons k w rest, p, q, v, h => by
      by_cases hk : k = q
      · subst hk
        simp only [JFields.set, if_pos rfl, JFields.get?,
          if_neg (fun e => h (Eq.symm e))]
      · simp only [JFields.set, if_neg hk, JFields.get?]
        by_cases hp : k = p
        · simp only [if_pos hp]
        · simp only [if_neg hp, get?_set_ne rest p q v h]

/-- A key found after a deletion was present before it. -/
theorem hasKey_del_imp : (fs : JFields) → (p q : PKey) →
    (fs.del q).hasKey p = true → fs.hasKey p = true
  | .nil, p, q => fun h => h
  | .cons k w rest, p, q => by
      intro h
      by_cases hk : k = q
      · have hd : (JFields.cons k w rest).del q = rest := by
          simp [JFields.del, hk]
        rw [hd] at h
        by_cases hp : k = p
        · simp [JFields.hasKey, JFields.get?, hp]
        · simp only [JFields.hasKey, JFields.get?, if_neg hp]
          exact h
      · have hd : (JFields.cons k w rest).del q = JFields.cons k w (rest.del q) := by
          simp [JFields.del, hk]
        rw [hd] at h
        by_cases hp : k = p
        · simp [JFields.hasKey, JFields.get?, hp]
        · simp only [JFields.hasKey, JFields.get?, if_neg hp] at h ⊢
          exact hasKey_del_imp rest p q h

/-- Deletion preserves key distinctness. -/
theorem keysUnique_del : (fs : JFields) → (q : PKey) → keysUnique fs = true →
    keysUnique (fs.del q) = true
  | .nil, _, h => h
  | .cons k w rest, q, h => by
      simp only [keysUnique, Bool.and_eq_true, Bool.not_eq_true'] at h
      by_cases hk : k = q
      · have hd : (JFields.cons k w rest).del q = rest := by
          simp [JFields.del, hk]
        rw [hd]
        exact h.2
      · have hd : (JFields.cons k w rest).del q = JFields.cons k w (rest.del q) := by
          simp [JFields.del, hk]
        rw [hd]
        simp only [keysUnique, Bool.and_eq_true, Bool.not_eq_true']
        refine ⟨?_, keysUnique_del rest q h.2⟩
        cases hd2 : (rest.del q).hasKey k with
        | false => rfl
        | true => exact absurd (hasKey_del_imp rest k q hd2) (by rw [h.1]; simp)

/-- Looking up a key in a distinct-key dict after deleting it fails. -/
theorem get?_del_self : (fs : JFields) → (q : PKey) → keysUnique fs = true →
    (fs.del q).get? q = none
  | .nil, _, _ => rfl
  | .cons k w rest, q, h => by
      simp only [keysUnique, Bool.and_eq_true, Bool.not_eq_true'] at h
      by_cases hk : k = q
      · have hd : (JFields.cons k w rest).del q = rest := by
          simp [JFields.del, hk]
        rw [hd]
        subst hk
        rcases hg : rest.get? k with _ | v
        · rfl
        · exfalso
          have hh := h.1
          rw [JFields.hasKey, hg] at hh
          simp at hh
      · have hd : (JFields.cons k w rest).del q = JFields.cons k w (rest.del q) := by
          simp [JFields.del, hk]
        rw [hd]
        simp only [JFields.get?, if_neg hk]
        exact get?_del_self rest q h.2

/-- Deleting one key leaves the others' lookups unchanged. -/
theorem get?_del_ne : (fs : JFields) → (p q : PKey) → p ≠ q →
    (fs.del q).get? p = fs.get? p
  | .nil, _, _, _ => rfl
  | .cons k w rest, p, q, h => by
      by_cases hk : k = q
      · have hd : (JFields.cons k w rest).del q = rest := by
          simp [JFields.del, hk]
        rw [hd]
        subst hk
        simp only [JFields.get?, if_neg (fun e => h (Eq.symm e))]
      · have hd : (JFields.cons k w rest).del q = JFields.cons k w (rest.del q) := by
          simp [JFields.del, hk]
        rw [hd]
        simp only [JFields.get?]
        by_cases hp : k = p
        · simp only [if_pos hp]
        · simp only [if_neg hp, get?_del_ne rest p q h]

/-- Deleting any key from a distinct-key dict preserves an absent (or
null) lookup. -/
theorem pyGet_del_of_none (fs : JFields) (p q : PKey) (hu : keysUnique fs = true)
    (h : pyGet fs p = none) : pyGet (fs.del q) p = none := by
  by_cases hpq : p = q
  · subst hpq
    unfold pyGet
    rw [get?_del_self fs p hu]
  · unfold pyGet
    rw [get?_del_ne fs p q hpq]
    exact h

/-- After `delIfPresent` the key answers `None`. -/
theorem pyGet_delIfPresent_self (fs : JFields) (q : PKey) (hu : keysUnique fs = true) :
    pyGet (delIfPresent fs q) q = none := by
  unfold delIfPresent
  cases h : pyGet fs q with
  | none => exact h
  | some v =>
      unfold pyGet
      rw [get?_del_self fs q hu]

/-- `delIfPresent` preserves an absent (or null) lookup of any key. -/
theorem pyGet_delIfPresent_none (fs : JFields) (p q : PKey) (hu : keysUnique fs = true)
    (h : pyGet fs p = none) : pyGet (delIfPresent fs q) p = none := by
  unfold delIfPresent
  cases hq : pyGet fs q with
  | none => exact h
  | some v => exact pyGet_del_of_none fs p q hu h

/-- `delIfPresent` preserves key distinctness. -/
theorem keysUnique_delIfPresent (fs : JFields) (q : PKey) (hu : keysUnique fs = true) :
    keysUnique (delIfPresent fs q) = true := by
  unfold delIfPresent
  cases pyGet fs q with
  | none => exact hu
  | some v => exact keysUnique_del fs q hu

/-- A successful `$required_template` removal step preserves key
distinctness and absent lookups (it deletes at most one key). -/
theorem reqDelete_ok (fs fs' : JFields) (hu : keysUnique fs = true)
    (h : reqDelete fs = .ok fs') :
    keysUnique fs' = true ∧ ∀ p, pyGet fs p = none → pyGet (fs' : JFields) p = none := by
  unfold reqDelete at h
  rcases hg : pyGet fs (.ps "$required_template") with _ | v
  · rw [hg] at h
    cases h
    exact ⟨hu, fun p hp => hp⟩
  · rw [hg] at h
    cases v with
    | jstr s =>
        dsimp only at h
        by_cases hk : fs.hasKey (.ps s) = true
        · rw [if_pos hk] at h
          cases h
          exact ⟨keysUnique_del fs _ hu, fun p hp => pyGet_del_of_none fs p _ hu hp⟩
        · rw [if_neg hk] at h
          cases h
    | jobj o => cases h
    | jarr a => cases h
    | jnull => cases h
    | jbool b => cases h
    | jint n => cases h
    | jfloat l => cases h

/-- C3 amended: a successful directive extraction removes `$schema`,
`$array_parent`, `$object_parent` and `$kind_parent` from the (distinct
key) template top level before indexing; `$id` is not among the keys it
processes, and the `$required_template` key is only removed indirectly
when its own value names it. -/
theorem claim3_amended (gs : JFields) (t' : J) (d : Directives)
    (hu : keysUnique gs = true)
    (h : extract_directives (J.jobj gs) = .ok (t', d)) :
    ∃ fs, t' = J.jobj fs ∧ keysUnique fs = true ∧
      pyGet fs (.ps "$schema") = none ∧ pyGet fs (.ps "$array_parent") = none ∧
      pyGet fs (.ps "$object_parent") = none ∧ pyGet fs (.ps "$kind_parent") = none := by
  unfold extract_directives at h
  simp only [Bind.bind, Except.bind, pure, Except.pure] at h
  rcases hr : reqDelete (delIfPresent gs (.ps "$schema")) with e | fs2
  · rw [hr] at h
    cases h
  · rw [hr] at h
    simp only [Except.ok.injEq, Prod.mk.injEq] at h
    obtain ⟨ht, _⟩ := h
    have u1 : keysUnique (delIfPresent gs (.ps "$schema")) = true :=
      keysUnique_delIfPresent gs _ hu
    obtain ⟨u2, pres2⟩ := reqDelete_ok _ fs2 u1 hr
    have u3 : keysUnique (delIfPresent fs2 (.ps "$array_parent")) = true :=
      keysUnique_delIfPresent fs2 _ u2
    have u4 : keysUnique (delIfPresent (delIfPresent fs2 (.ps "$array_parent"))
        (.ps "$object_parent")) = true := keysUnique_delIfPresent _ _ u3
    have u5 : keysUnique (delIfPresent (delIfPresent (delIfPresent fs2
        (.ps "$array_parent")) (.ps "$object_parent")) (.ps "$kind_parent")) = true :=
      keysUnique_delIfPresent _ _ u4
    refine ⟨_, ht.symm, u5, ?_, ?_, ?_, ?_⟩
    · exact pyGet_delIfPresent_none _ _ _ u4
        (pyGet_delIfPresent_none _ _ _ u3
          (pyGet_delIfPresent_none _ _ _ u2
            (pres2 _ (pyGet_delIfPresent_self gs _ hu))))
    · exact pyGet_delIfPresent_none _ _ _ u4
        (pyGet_delIfPresent_none _ _ _ u3 (pyGet_delIfPresent_self fs2 _ u2))
    · exact pyGet_delIfPresent_none _ _ _ u4 (pyGet_delIfPresent_self _ _ u3)
    · exact pyGet_delIfPresent_self _ _ u4

/-- C3 witness: a concrete template with `$schema` and `$array_parent`
for which extraction succeeds and the amended statement holds. -/
theorem claim3_witness :
    ∃ fs, J.jobj (.cons (.ps "a") (.jstr "b") .nil) = J.jobj fs ∧ keysUnique fs = true ∧
      pyGet fs (.ps "$schema") = none ∧ pyGet fs (.ps "$array_parent") = none ∧
      pyGet fs (.ps "$object_parent") = none ∧ pyGet fs (.ps "$kind_parent") = none :=
  claim3_amended
    (.cons (.ps "$schema") (.jstr "S")
      (.cons (.ps "$array_parent") (.jstr "p") (.cons (.ps "a") (.jstr "b") .nil)))
    (J.jobj (.cons (.ps "a") (.jstr "b") .nil))
    ⟨some (.jstr "S"), none, some (.jstr "p"), none, none⟩ rfl rfl

/-- C4 amended: when the manifest's `legal` entry holds a dict,
`set_legal_tag` succeeds and overwrites `legal.legaltags` with the
one-element tag list and `legal.otherRelevantDataCountries` with
`["US"]`; when `legal` answers `None` (absent or null), the subscript
assignment raises TypeError and the call fails. -/
theorem claim4_amended (fs lf : JFields) (tag : String) :
    (pyGet fs (.ps "legal") = some (.jobj lf) →
      ∃ fs', set_legal_tag (J.jobj fs) tag = .ok (.jobj fs') ∧
        ∃ lf', fs'.get? (.ps "legal") = some (.jobj lf') ∧
          lf'.get? (.ps "legaltags") = some (.jarr (.cons (.jstr tag) .nil)) ∧
          lf'.get? (.ps "otherRelevantDataCountries") =
            some (.jarr (.cons (.jstr "US") .nil))) ∧
    (pyGet fs (.ps "legal") = none → set_legal_tag (J.jobj fs) tag = .error F.typeError) := by
  constructor
  · intro h
    unfold set_legal_tag
    dsimp only
    rw [h]
    refine ⟨_, rfl, _, get?_set_self fs _ _, ?_, get?_set_self _ _ _⟩
    rw [get?_set_ne _ _ _ _ (by simp), get?_set_self]
  · intro h
    unfold set_legal_tag
    dsimp only
    rw [h]

/-- C4 witness: a concrete manifest with a `legal` dict for which the
amended overwrite statement holds. -/
theorem claim4_witness :
    ∃ fs', set_legal_tag
        (J.jobj (.cons (.ps "legal")
          (J.jobj (.cons (.ps "x") (.jstr "keep") .nil)) .nil)) "T" = .ok (.jobj fs') ∧
      ∃ lf', fs'.get? (.ps "legal") = some (.jobj lf') ∧
        lf'.get? (.ps "legaltags") = some (.jarr (.cons (.jstr "T") .nil)) ∧
        lf'.get? (.ps "otherRelevantDataCountries") =
          some (.jarr (.cons (.jstr "US") .nil)) :=
  (claim4_amended (.cons (.ps "legal") (J.jobj (.cons (.ps "x") (.jstr "keep") .nil)) .nil)
    (.cons (.ps "x") (.jstr "keep") .nil) "T").1 rfl

/-! Lemmas about output-name resolution (C10). -/

/-- Character-list join with a separator (the data-level view of
`joinCh`). -/
def joinD (sep : Char) : List (List Char) → List Char
  | [] => []
  | [p] => p
  | p :: rest => p ++ sep :: joinD sep rest

/-- `joinCh` over wrapped character lists is `joinD`. -/
theorem joinCh_map_mk (sep : Char) : (parts : List (List Char)) →
    joinCh sep (parts.map (fun x => ⟨x⟩)) = ⟨joinD sep parts⟩
  | [] => rfl
  | [p] => rfl
  | p :: q :: rest => by
      show (⟨p⟩ : String) ++ ⟨[sep]⟩ ++ joinCh sep ((q :: rest).map (fun x => ⟨x⟩))
          = ⟨p ++ sep :: joinD sep (q :: rest)⟩
      rw [joinCh_map_mk sep (q :: rest)]
      have happ : ∀ (a b : List Char), (⟨a⟩ : String) ++ ⟨b⟩ = ⟨a ++ b⟩ := fun a b => rfl
      rw [happ, happ]
      simp [List.append_assoc]

/-- A split is never the empty list of parts. -/
theorem splitCh_ne_nil : (l : List Char) → (sep : Char) → splitCh l sep ≠ []
  | [], _ => by simp [splitCh]
  | c :: rest, sep => by
      by_cases h : c = sep
      · simp [splitCh, h]
      · simp only [splitCh, if_neg h]
        rcases hs : splitCh rest sep with _ | ⟨p, ps⟩ <;> simp

/-- Joining a split restores the original character list. -/
theorem splitCh_joinD : (l : List Char) → (sep : Char) → joinD sep (splitCh l sep) = l
  | [], _ => rfl
  | c :: rest, sep => by
      by_cases h : c = sep
      · simp only [splitCh, if_pos h]
        rcases hs : splitCh rest sep with _ | ⟨p, ps⟩
        · exact absurd hs (splitCh_ne_nil rest sep)
        · have ih := splitCh_joinD rest sep
          rw [hs] at ih
          show [] ++ sep :: joinD sep (p :: ps) = c :: rest
          rw [ih, h]
          rfl
      · simp only [splitCh, if_neg h]
        rcases hs : splitCh rest sep with _ | ⟨p, ps⟩
        · exact absurd hs (splitCh_ne_nil rest sep)
        · have ih := splitCh_joinD rest sep
          rw [hs] at ih
          cases ps with
          | nil =>
              show c :: p = c :: rest
              rw [show joinD sep [p] = p from rfl] at ih
              rw [ih]
          | cons q qs =>
              show (c :: p) ++ sep :: joinD sep (q :: qs) = c :: rest
              rw [show joinD sep (p :: q :: qs) = p ++ sep :: joinD sep (q :: qs) from rfl] at ih
              simp only [List.cons_append]
              rw [ih]

/-- Joining the split of a string restores the string. -/
theorem pySplit_join (s : String) (sep : Char) : joinCh sep (pySplit s sep) = s := by
  unfold pySplit
  rw [joinCh_map_mk, splitCh_joinD]

/-- Sum of the part lengths. -/
def sumLen (ps : List String) : Nat :=
  (ps.map String.length).sum

/-- Length of a join: the parts plus one separator between each pair. -/
theorem joinCh_length (sep : Char) : (ps : List String) →
    (joinCh sep ps).length = sumLen ps + (ps.length - 1)
  | [] => rfl
  | [p] => by simp [joinCh, sumLen]
  | p :: q :: rest => by
      have ih := joinCh_length sep (q :: rest)
      show (p ++ ⟨[sep]⟩ ++ joinCh sep (q :: rest)).length = _
      simp only [String.length_append, ih, sumLen, List.map_cons, List.sum_cons,
        List.length_cons]
      have h1 : (⟨[sep]⟩ : String).length = 1 := rfl
      rw [h1]
      omega

/-- Sums over reversed part lists agree. -/
theorem sumLen_reverse (ps : List String) : sumLen ps.reverse = sumLen ps := by
  unfold sumLen
  rw [List.map_reverse, List.sum_reverse]

/-- Appending the numeric suffix strictly lengthens the name. -/
theorem suffixName_length (name : String) (k : Nat) :
    name.length < (suffixName name k).length := by
  unfold suffixName
  rcases hp : (pySplit name '.').reverse with _ | ⟨last, tail⟩
  · show name.length < (name ++ "_" ++ natStr k).length
    simp only [String.length_append]
    have : ("_" : String).length = 1 := rfl
    omega
  · rcases tail with _ | ⟨sl, before⟩
    · show name.length < (name ++ "_" ++ natStr k).length
      simp only [String.length_append]
      have : ("_" : String).length = 1 := rfl
      omega
    · show name.length
        < (joinCh '.' ((last :: (sl ++ "_" ++ natStr k) :: before).reverse)).length
      have hname : name.length = sumLen (pySplit name '.') + ((pySplit name '.').length - 1) := by
        rw [← pySplit_join name '.', joinCh_length]
        rw [pySplit_join name '.']
      have hparts : pySplit name '.' = (last :: sl :: before).reverse := by
        rw [← hp, List.reverse_reverse]
      rw [joinCh_length, hname, hparts]
      rw [sumLen_reverse, sumLen_reverse, List.length_reverse, List.length_reverse]
      have hu : ("_" : String).length = 1 := rfl
      simp only [sumLen, List.map_cons, List.sum_cons, List.length_cons,
        String.length_append, hu]
      omega

/-- The renaming loop never shortens the name. -/
theorem resolveLoop_length : (fuel : Nat) → (pl : List String) → (name : String) → (k : Nat) →
    name.length ≤ (resolveLoop fuel pl name k).length
  | 0, _, _, _ => Nat.le_refl _
  | fuel + 1, pl, name, k => by
      unfold resolveLoop
      by_cases h : pl.contains (pyLower name) = true
      · rw [if_pos h]
        exact Nat.le_trans (Nat.le_of_lt (suffixName_length name k))
          (resolveLoop_length fuel pl (suffixName name k) (k + 1))
      · rw [if_neg h]

/-- Reading a file just written (or overwritten) finds the new content. -/
theorem fsLook_write_self : (files : List (String × J)) → (n : String) → (v : J) →
    fsLook (fsWrite files n v) n = some v
  | [], n, v => by simp [fsWrite, fsLook]
  | (m, w) :: rest, n, v => by
      by_cases h : m = n
      · simp [fsWrite, fsLook, h]
      · simp [fsWrite, fsLook, h, fsLook_write_self rest n v]

/-- C10: duplicate output names.  An exact duplicate (same case) is kept
unchanged with the duplicate-row warning, and a later write to it
replaces the earlier file; a name clashing only case-insensitively is
renamed with the numeric suffix; a fresh name passes through untouched. -/
theorem claim10_duplicate_naming (processed processed_lower : List String) (name : String) :
    (processed.contains name = true →
      resolve_output_file processed processed_lower name = (name, true)) ∧
    (processed.contains name = false → processed_lower.contains (pyLower name) = false →
      resolve_output_file processed processed_lower name = (name, false)) ∧
    (processed.contains name = false → processed_lower.contains (pyLower name) = true →
      (resolve_output_file processed processed_lower name).1 ≠ name ∧
        (resolve_output_file processed processed_lower name).2 = false) ∧
    (∀ (files : List (String × J)) (v : J), fsLook (fsWrite files name v) name = some v) := by
  refine ⟨?_, ?_, ?_, fun files v => fsLook_write_self files name v⟩
  · intro h
    unfold resolve_output_file
    rw [if_pos h]
  · intro h1 h2
    unfold resolve_output_file
    rw [if_neg (by rw [h1]; simp)]
    unfold resolveLoop
    rw [if_neg (by rw [h2]; simp)]
  · intro h1 h2
    unfold resolve_output_file
    rw [if_neg (by rw [h1]; simp)]
    refine ⟨?_, rfl⟩
    show resolveLoop (processed_lower.length + 1) processed_lower name 1 ≠ name
    unfold resolveLoop
    rw [if_pos h2]
    intro he
    have hlen : name.length < (suffixName name 1).length := suffixName_length name 1
    have hle := resolveLoop_length processed_lower.length processed_lower
      (suffixName name 1) 2
    rw [he] at hle
    omega

/-- C10 witness: a run has already produced `a.json`; a second `a.json`
is kept (warned, overwriting), while `A.json` — a case-variant — is
renamed. -/
theorem claim10_witness :
    resolve_output_file ["a.json"] ["a.json"] "a.json" = ("a.json", true) ∧
      (resolve_output_file ["a.json"] ["a.json"] "A.json").1 ≠ "A.json" :=
  ⟨(claim10_duplicate_naming ["a.json"] ["a.json"] "a.json").1 rfl,
   ((claim10_duplicate_naming ["a.json"] ["a.json"] "A.json").2.2.1 rfl rfl).1⟩

/-! Lemmas about the column binder (C8). -/

/-- Looking up a binding just set finds it. -/
theorem bindLookup_set_self : (m : BindMap) → (p : String) → (v : BindVal) →
    bindLookup (bindSet m p v) p = some v
  | [], p, v => by simp [bindSet, bindLookup]
  | (q, w) :: rest, p, v => by
      by_cases h : q = p <;>
        simp [bindSet, bindLookup, h, bindLookup_set_self rest p v]

/-- Setting any binding preserves the presence of a binding. -/
theorem bindLookup_set_isSome : (m : BindMap) → (p q : String) → (v : BindVal) →
    (bindLookup m p).isSome = true → (bindLookup (bindSet m q v) p).isSome = true
  | [], p, q, v => by simp [bindLookup]
  | (a, b) :: rest, p, q, v => by
      intro h
      simp only [bindLookup] at h
      by_cases haq : a = q
      · subst haq
        simp only [bindSet, if_pos rfl, bindLookup]
        by_cases hap : a = p
        · simp [hap]
        · simp only [if_neg hap] at h ⊢
          exact h
      · simp only [bindSet, if_neg haq, bindLookup]
        by_cases hap : a = p
        · simp [hap]
        · simp only [if_neg hap] at h ⊢
          exact bindLookup_set_isSome rest p q v h

/-- The occurrence fold splits over list append (errors short-circuit). -/
theorem bindOccs_append (cols : List String) (p : String) :
    (l1 l2 : List Occ) → (m : BindMap) →
    bindOccs cols p (l1 ++ l2) m =
      (match bindOccs cols p l1 m with
       | .ok m' => bindOccs cols p l2 m'
       | .error e => .error e)
  | [], l2, m => rfl
  | occ :: rest, l2, m => by
      by_cases hl : occ.rootList.length = 0
      · simp only [List.cons_append, bindOccs, if_pos hl]
        rcases hs : bindLookup m p with _ | v
        · simp only []
          rcases hg : get_column_index cols (paramKeyOf p) with e | i
          · rfl
          · exact bindOccs_append cols p rest l2 _
        · exact bindOccs_append cols p rest l2 m
      · simp only [List.cons_append, bindOccs, if_neg hl]
        rcases hs : bindLookup m p with _ | v
        · simp only []
          rcases ha : arrayEntries cols p occ.rootList.length with e | entries
          · rfl
          · exact bindOccs_append cols p rest l2 _
        · rfl

/-- Processing any occurrence list that still contains an array-shaped
occurrence errors when the parameter is already bound. -/
theorem bindOccs_array_present (cols : List String) (p : String) :
    (occs : List Occ) → (m : BindMap) →
    (bindLookup m p).isSome = true →
    (∃ occ ∈ occs, occ.rootList.length ≠ 0) →
    ∃ e, bindOccs cols p occs m = .error e
  | [], m, hm, hex => by simp at hex
  | occ :: rest, m, hm, hex => by
      rcases hs : bindLookup m p with _ | v
      · rw [hs] at hm
        simp at hm
      · by_cases hl : occ.rootList.length = 0
        · have hex' : ∃ o ∈ rest, o.rootList.length ≠ 0 := by
            rcases hex with ⟨o, ho, hno⟩
            rcases List.mem_cons.mp ho with he | hr
            · rw [he] at hno
              exact absurd hl hno
            · exact ⟨o, hr, hno⟩
          obtain ⟨e, he⟩ := bindOccs_array_present cols p rest m hm hex'
          refine ⟨e, ?_⟩
          simp only [bindOccs, if_pos hl, hs]
          exact he
        · refine ⟨.duplicateArrayParameter, ?_⟩
          simp only [bindOccs, if_neg hl, hs]

/-- A successful occurrence fold never drops an existing binding. -/
theorem bindOccs_lookup_mono (cols : List String) (q p : String) :
    (occs : List Occ) → (m m' : BindMap) →
    bindOccs cols q occs m = .ok m' →
    (bindLookup m p).isSome = true → (bindLookup m' p).isSome = true
  | [], m, m', h, hm => by
      simp only [bindOccs] at h
      cases h
      exact hm
  | occ :: rest, m, m', h, hm => by
      by_cases hl : occ.rootList.length = 0
      · simp only [bindOccs, if_pos hl] at h
        rcases hs : bindLookup m q with _ | v
        · simp only [hs] at h
          rcases hg : get_column_index cols (paramKeyOf q) with e | i
          · simp only [hg] at h
            cases h
          · simp only [hg] at h
            by_cases hi : i ≥ 0
            · rw [if_pos hi] at h
              exact bindOccs_lookup_mono cols q p rest _ m' h
                (bindLookup_set_isSome m p q _ hm)
            · rw [if_neg hi] at h
              exact bindOccs_lookup_mono cols q p rest m m' h hm
        · simp only [hs] at h
          exact bindOccs_lookup_mono cols q p rest m m' h hm
      · simp only [bindOccs, if_neg hl] at h
        rcases hs : bindLookup m q with _ | v
        · simp only [hs] at h
          rcases ha : arrayEntries cols q occ.rootList.length with e | entries
          · simp only [ha] at h
            cases h
          · simp only [ha] at h
            exact bindOccs_lookup_mono cols q p rest _ m' h
              (bindLookup_set_isSome m p q _ hm)
        · simp only [hs] at h
          cases h

/-- After successfully processing a non-empty occurrence list whose
scalar key resolves to a column, the parameter is bound (the first
occurrence binds it, scalar or array, and later ones preserve it). -/
theorem bindOccs_ok_present (cols : List String) (p : String) :
    (l : List Occ) → (m m1 : BindMap) →
    bindOccs cols p l m = .ok m1 → l ≠ [] →
    (∃ i : Nat, get_column_index cols (paramKeyOf p) = .ok (i : Int)) →
    (bindLookup m1 p).isSome = true
  | [], _, _, _, hne, _ => absurd rfl hne
  | occ :: rest, m, m1, h, _, hg => by
      by_cases hl : occ.rootList.length = 0
      · simp only [bindOccs, if_pos hl] at h
        rcases hs : bindLookup m p with _ | v
        · simp only [hs] at h
          obtain ⟨iN, hgi⟩ := hg
          simp only [hgi] at h
          rw [if_pos (by exact_mod_cast Int.natCast_nonneg iN)] at h
          exact bindOccs_lookup_mono cols p p rest _ m1 h
            (by rw [bindLookup_set_self]; rfl)
        · simp only [hs] at h
          exact bindOccs_lookup_mono cols p p rest m m1 h (by rw [hs]; rfl)
      · simp only [bindOccs, if_neg hl] at h
        rcases hs : bindLookup m p with _ | v
        · simp only [hs] at h
          rcases ha : arrayEntries cols p occ.rootList.length with e | entries
          · simp only [ha] at h
            cases h
          · simp only [ha] at h
            exact bindOccs_lookup_mono cols p p rest _ m1 h
              (by rw [bindLookup_set_self]; rfl)
        · simp only [hs] at h
          cases h

/-- After successfully processing an occurrence list containing an
array-shaped occurrence, the parameter is bound (the array occurrence
binds it or errors; later occurrences preserve it). -/
theorem bindOccs_ok_present_array (cols : List String) (p : String) :
    (l : List Occ) → (m m1 : BindMap) →
    bindOccs cols p l m = .ok m1 → (∃ o ∈ l, o.rootList.length ≠ 0) →
    (bindLookup m1 p).isSome = true
  | [], m, m1, h, hex => by simp at hex
  | occ :: rest, m, m1, h, hex => by
      by_cases hl : occ.rootList.length = 0
      · have hex' : ∃ o ∈ rest, o.rootList.length ≠ 0 := by
          rcases hex with ⟨o, ho, hno⟩
          rcases List.mem_cons.mp ho with he | hr
          · rw [he] at hno
            exact absurd hl hno
          · exact ⟨o, hr, hno⟩
        simp only [bindOccs, if_pos hl] at h
        rcases hs : bindLookup m p with _ | v
        · simp only [hs] at h
          rcases hg : get_column_index cols (paramKeyOf p) with e | i
          · simp only [hg] at h
            cases h
          · simp only [hg] at h
            by_cases hi : i ≥ 0
            · rw [if_pos hi] at h
              exact bindOccs_ok_present_array cols p rest _ m1 h hex'
            · rw [if_neg hi] at h
              exact bindOccs_ok_present_array cols p rest m m1 h hex'
        · simp only [hs] at h
          exact bindOccs_ok_present_array cols p rest m m1 h hex'
      · simp only [bindOccs, if_neg hl] at h
        rcases hs : bindLookup m p with _ | v
        · simp only [hs] at h
          rcases ha : arrayEntries cols p occ.rootList.length with e | entries
          · simp only [ha] at h
            cases h
          · simp only [ha] at h
            exact bindOccs_lookup_mono cols p p rest _ m1 h
              (by rw [bindLookup_set_self]; rfl)
        · simp only [hs] at h
          cases h

/-- If one parameter's occurrence list always errors, the whole binder
fold errors. -/
theorem bindParams_error_of_mem (cols : List String) (p : String) (occs : List Occ)
    (herr : ∀ m : BindMap, ∃ e, bindOccs cols p occs m = .error e) :
    (ps0 : Params) → (m : BindMap) → (p, occs) ∈ ps0 →
    ∃ e, bindParams cols ps0 m = .error e
  | [], _, hmem => by simp at hmem
  | (q, os) :: rest, m, hmem => by
      rcases List.mem_cons.mp hmem with he | hr
      · obtain ⟨hq, hos⟩ := Prod.mk.injEq p occs q os ▸ he
        subst hq
        subst hos
        obtain ⟨e, hde⟩ := herr m
        refine ⟨e, ?_⟩
        simp only [bindParams, hde]
      · rcases hb : bindOccs cols q os m with e | m'
        · exact ⟨e, by simp only [bindParams, hb]⟩
        · obtain ⟨e, he2⟩ := bindParams_error_of_mem cols p occs herr rest m' hr
          exact ⟨e, by simp only [bindParams, hb, he2]⟩

/-- C8: duplicate array-parameter binding is a fatal fault.  Binding the
same array-shaped placeholder a second time errors; so does an
array-shaped occurrence of a placeholder that an earlier scalar
occurrence already bound to a column; and a binder error aborts the
whole run (the binder is called outside the per-row handler). -/
theorem claim8_duplicate_array_parameter (rows : List (List String)) (ps0 : Params)
    (p : String) (occs : List Occ) (hmem : (p, occs) ∈ ps0) :
    (∀ pre o1 mid o2 post, occs = pre ++ o1 :: mid ++ o2 :: post →
       o1.rootList.length ≠ 0 → o2.rootList.length ≠ 0 →
       ∃ e, map_csv_column_names_to_parameters rows ps0 = .error e) ∧
    (∀ pre oA post, occs = pre ++ oA :: post → oA.rootList.length ≠ 0 →
       (∃ oS ∈ pre, oS.rootList.length = 0) →
       (∃ i : Nat, get_column_index (headerColumns rows) (paramKeyOf p) = .ok (i : Int)) →
       ∃ e, map_csv_column_names_to_parameters rows ps0 = .error e) ∧
    (∀ (input_csv output_path : String) (template0 t : J) (dirs : Directives)
       (ps' : Params) (e : F) (av ao lt : Option String),
       extract_directives template0 = .ok (t, dirs) →
       parse_template_parameters t = .ok ps' →
       map_csv_column_names_to_parameters rows ps' = .error e →
       create_manifest_from_csv_rows input_csv template0 rows output_path none none none
         none av ao lt = .error e) := by
  refine ⟨?_, ?_, ?_⟩
  · intro pre o1 mid o2 post hocc h1 h2
    have herr : ∀ m : BindMap, ∃ e, bindOccs (headerColumns rows) p occs m = .error e := by
      intro m
      rw [hocc, bindOccs_append]
      rcases hb : bindOccs (headerColumns rows) p (pre ++ o1 :: mid) m with e | m1
      · exact ⟨e, rfl⟩
      · have hp1 : (bindLookup m1 p).isSome = true :=
          bindOccs_ok_present_array (headerColumns rows) p (pre ++ o1 :: mid) m m1 hb
            ⟨o1, by simp, h1⟩
        exact bindOccs_array_present (headerColumns rows) p (o2 :: post) m1 hp1
          ⟨o2, by simp, h2⟩
    exact bindParams_error_of_mem (headerColumns rows) p occs herr ps0 [] hmem
  · intro pre oA post hocc hA hS hgci
    have herr : ∀ m : BindMap, ∃ e, bindOccs (headerColumns rows) p occs m = .error e := by
      intro m
      rw [hocc, bindOccs_append]
      rcases hb : bindOccs (headerColumns rows) p pre m with e | m1
      · exact ⟨e, rfl⟩
      · have hpre : pre ≠ [] := by
          rcases hS with ⟨oS, hmS, _⟩
          intro hnil
          rw [hnil] at hmS
          simp at hmS
        have hp1 : (bindLookup m1 p).isSome = true :=
          bindOccs_ok_present (headerColumns rows) p pre m m1 hb hpre hgci
        obtain ⟨e, he⟩ := bindOccs_array_present (headerColumns rows) p (oA :: post) m1 hp1
          ⟨oA, by simp, hA⟩
        exact ⟨e, he⟩
    exact bindParams_error_of_mem (headerColumns rows) p occs herr ps0 [] hmem
  · intro input_csv output_path template0 t dirs ps' e av ao lt hext hparse hbind
    unfold create_manifest_from_csv_rows
    simp only [hext, hparse, hbind, Bind.bind, Except.bind, pure, Except.pure]

/-- A pair of array-shaped occurrences for the C8 witness (the shape is
all the binder inspects). -/
def c8occ : Occ := ⟨J.jnull, [], [(J.jnull, [])]⟩

/-- C8 witness: a parameter with two array-shaped occurrences makes the
binder fail on a concrete header row. -/
theorem claim8_witness :
    ∃ e, map_csv_column_names_to_parameters [["x", "x_1"]]
      [(paramX, [c8occ, c8occ])] = .error e :=
  (claim8_duplicate_array_parameter [["x", "x_1"]] [(paramX, [c8occ, c8occ])] paramX
    [c8occ, c8occ] (List.Mem.head _)).1 [] c8occ [] c8occ [] rfl (by decide) (by decide)

/-! The boolean-coercion claim (C5). -/

/-- The single occurrence of `{{x}}` in the `bool` template. -/
def c5occ : Occ := ⟨tmplBool, [PKey.ps "b"], []⟩

/-- The parameter index of the `bool` template. -/
def c5params : Params := [(paramX, [c5occ])]

/-- The column binding of the `bool` template against the header `x`. -/
def c5binds : BindMap := [(paramX, BindVal.scalar 0)]

/-- The substitution pass on the `bool` template: a blank (stripped)
cell leaves the template untouched, any other cell replaces the leaf by
the coerced boolean. -/
theorem claim5_subst_eq (s : String) :
    substAll tmplBool c5binds [s] c5params =
      Except.bind (Except.bind
        (if (pyStrip s).length = 0 then Except.ok tmplBool
         else Except.ok (J.jobj (.cons (.ps "b") (.jbool (pyBoolTrue (pyStrip s))) .nil)))
        (fun t => Except.ok t)) (fun t => Except.ok t) := rfl

/-- C5 counterexample: a blank cell does not produce the boolean
`false` — the typed leaf keeps its placeholder, the pruning pass removes
it, and the key `b` is absent from the output entirely. -/
theorem claim5_counterexample :
    (do
      let p ← parse_template_parameters tmplBool
      let b ← map_csv_column_names_to_parameters [["x"], [""]] p
      create_manifest_from_row tmplBool none p b [""] none none none) =
        Except.ok (J.jobj .nil) ∧
      (Except.ok (J.jobj .nil) : Except F J) ≠
        .ok (J.jobj (.cons (.ps "b") (.jbool false) .nil)) := by
  refine ⟨rfl, ?_⟩
  intro h
  simp at h

/-- C5 amended: for the typed leaf `bool({{x}})` bound to a column, a
non-empty (stripped) cell substitutes the boolean that is true exactly
when the lower-cased value is one of true, yes, y, t, 1 (`pyBoolTrue`);
a blank cell leaves the placeholder unsubstituted and the pruning pass
removes the leaf, so the output has no `b` key rather than `false`. -/
theorem claim5_amended (s : String) :
    ((pyStrip s).length ≠ 0 →
      (do
        let p ← parse_template_parameters tmplBool
        let b ← map_csv_column_names_to_parameters [["x"], [s]] p
        create_manifest_from_row tmplBool none p b [s] none none none) =
        Except.ok (J.jobj (.cons (.ps "b") (.jbool (pyBoolTrue (pyStrip s))) .nil))) ∧
    ((pyStrip s).length = 0 →
      (do
        let p ← parse_template_parameters tmplBool
        let b ← map_csv_column_names_to_parameters [["x"], [s]] p
        create_manifest_from_row tmplBool none p b [s] none none none) =
        Except.ok (J.jobj .nil)) := by
  have hkey :
      (do
        let p ← parse_template_parameters tmplBool
        let b ← map_csv_column_names_to_parameters [["x"], [s]] p
        create_manifest_from_row tmplBool none p b [s] none none none) =
      Except.bind (substAll tmplBool c5binds [s] c5params)
        (fun ldm => Except.bind (clear_non_filled_parameters ldm)
          (fun l2 => Except.bind (remove_special_tags l2)
            (fun l3 => Except.ok l3))) := rfl
  constructor
  · intro h
    rw [hkey, claim5_subst_eq s, if_neg h]
    rfl
  · intro hz
    rw [hkey, claim5_subst_eq s, if_pos hz]
    rfl

/-- C5 witness: the cell `No` yields the boolean false, and a blank cell
yields a manifest without the key. -/
theorem claim5_witness :
    (do
      let p ← parse_template_parameters tmplBool
      let b ← map_csv_column_names_to_parameters [["x"], ["No"]] p
      create_manifest_from_row tmplBool none p b ["No"] none none none) =
        Except.ok (J.jobj (.cons (.ps "b") (.jbool false) .nil)) ∧
    (do
      let p ← parse_template_parameters tmplBool
      let b ← map_csv_column_names_to_parameters [["x"], [""]] p
      create_manifest_from_row tmplBool none p b [""] none none none) =
        Except.ok (J.jobj .nil) :=
  ⟨(claim5_amended "No").1 (by decide), (claim5_amended "").2 (by decide)⟩

end TnoCsv
